import Mathlib

/-!
Verification development for the gotext translation library.

The repository's `gotext.go` provides the package-level registry functions
(`AddConfig`, `Get`, `GetD`, `GetN`, `GetND`, `GetC`, `GetDC`, `GetNC`,
`GetNDC`, `GetDomain`, `GetLibrary`, `SetLanguage`) on top of a translation
core (Domain, Locale, text catalog parser, plural rules, formatting helper).
The core is not part of the given sources, so it is modelled here from the
specification; `gotext.go` and `cli/xgotext/parser/dir/parser.go` are embedded
directly from the source.
-/

set_option maxHeartbeats 1000000

namespace Gotext

/-- Values passed as variadic printf-style arguments (the Go `...interface\x7b\x7d`
arguments restricted to the integer and string cases the library's examples
use). -/
inductive Val where
  | i (n : Int)
  | s (str : String)
deriving DecidableEq, Repr

/-- Modelled from the spec: rendering one positional value into text (§9,
"apply positional substitution to a resolved template string"). -/
def renderVal : Val → String
  | .i n => toString n
  | .s str => str

/-- Modelled from the spec: positional printf-style substitution over the
characters of a template.  A `%` followed by a verb consumes the next value;
`%%` renders a literal percent sign; a verb with no remaining value is kept
literally. -/
def printfAux : List Char → List Val → List Char
  | [], _ => []
  | '%' :: '%' :: rest, vs => '%' :: printfAux rest vs
  | '%' :: c :: rest, v :: vs =>
      if c = 'd' ∨ c = 's' ∨ c = 'v' then (renderVal v).data ++ printfAux rest vs
      else '%' :: c :: printfAux rest vs
  | c :: rest, vs => c :: printfAux rest vs

/-- Modelled from the spec: the library's `Printf` helper.  When no variadic
arguments are supplied the template string is returned verbatim; otherwise
positional substitution is applied. -/
def Printf (s : String) (vars : List Val) : String :=
  match vars with
  | [] => s
  | _ => ⟨printfAux s.data vars⟩

/-- Modelled from the spec (§3): one translation entry — source string `ID`,
disambiguation `Context`, optional plural source `PluralID`, the ordered
target forms `Trs`, source references `Refs` and the needs-translation
marker `dirty`. -/
structure Translation where
  ID : String
  Context : String
  PluralID : String
  Trs : List String
  Refs : List String
  dirty : Bool
deriving DecidableEq, Repr

/-- Binary operators of the C-subset plural-rule expression language (§4.1). -/
inductive PBin where
  | add | sub | mul | div | mod
  | beq | bne | blt | ble | bgt | bge
  | band | bor
deriving DecidableEq, Repr

/-- Modelled from the spec (§4.1): the plural-rule expression tree — integer
literals, the free variable `n`, unary `!`, binary arithmetic, relational and
logical operators and the ternary conditional. -/
inductive PluralExpr where
  | num (n : Nat)
  | varn
  | pnot (e : PluralExpr)
  | bin (op : PBin) (a b : PluralExpr)
  | cond (c t f : PluralExpr)
deriving DecidableEq, Repr

/-- C truth values: booleans are represented as the integers 0 and 1. -/
def b2i (b : Bool) : Int := if b then 1 else 0

/-- Modelled from the spec (§4.1): evaluation of one binary operator with
C semantics; division and modulo by zero are defined as 0 so the evaluator is
total (the spec forbids literal `/0` at parse time). -/
def evalPBin (op : PBin) (x y : Int) : Int :=
  match op with
  | .add => x + y
  | .sub => x - y
  | .mul => x * y
  | .div => if y = 0 then 0 else x / y
  | .mod => if y = 0 then 0 else x % y
  | .beq => if x = y then 1 else 0
  | .bne => if x = y then 0 else 1
  | .blt => if x < y then 1 else 0
  | .ble => if x ≤ y then 1 else 0
  | .bgt => if y < x then 1 else 0
  | .bge => if y ≤ x then 1 else 0
  | .band => if x ≠ 0 ∧ y ≠ 0 then 1 else 0
  | .bor => if x ≠ 0 ∨ y ≠ 0 then 1 else 0

/-- Modelled from the spec (§4.1): evaluation of a plural-rule expression with
the count bound to the free variable `n`. -/
def evalExpr : PluralExpr → Int → Int
  | .num k, _ => (k : Int)
  | .varn, n => n
  | .pnot e, n => if evalExpr e n = 0 then 1 else 0
  | .bin op a b, n => evalPBin op (evalExpr a n) (evalExpr b n)
  | .cond c t f, n => if evalExpr c n ≠ 0 then evalExpr t n else evalExpr f n

/-- Modelled from the spec (§4.1): a declared plural rule — the declared form
count together with the parsed selection expression. -/
structure PluralRule where
  nplurals : Nat
  expr : PluralExpr
deriving DecidableEq, Repr

/-- Modelled from the spec (§3): the in-memory catalog — name, language, the
optionally declared plural rule and the list of entries keyed by
(ID, Context). -/
structure Domain where
  name : String
  language : String
  pluralRule : Option PluralRule
  entries : List Translation
deriving DecidableEq, Repr

/-- Declared number of plural forms; 2 when the catalog declares no rule. -/
def npluralsOf (d : Domain) : Nat :=
  match d.pluralRule with
  | none => 2
  | some r => r.nplurals

/-- Modelled from the spec (§4.1): the plural form selector.  When the catalog
declares no rule the default two-form rule applies: form 0 for a count of 1
and form 1 otherwise. -/
def selectForm (d : Domain) (n : Int) : Nat :=
  match d.pluralRule with
  | none => if n = 1 then 0 else 1
  | some r => (evalExpr r.expr n).toNat

/-- Association-list lookup modelling a Go map access. -/
def lookupA {κ α : Type} [DecidableEq κ] : List (κ × α) → κ → Option α
  | [], _ => none
  | (k, v) :: rest, key => if k = key then some v else lookupA rest key

/-- Association-list insertion modelling a Go map assignment: an existing key
is overwritten in place, a new key is appended. -/
def insertA {κ α : Type} [DecidableEq κ] : List (κ × α) → κ → α → List (κ × α)
  | [], k, v => [(k, v)]
  | (k0, v0) :: rest, k, v =>
      if k0 = k then (k, v) :: rest else (k0, v0) :: insertA rest k v

/-- Entry lookup by the (ID, Context) key. -/
def findEntry (d : Domain) (id ctx : String) : Option Translation :=
  d.entries.find? (fun t => t.ID = id ∧ t.Context = ctx)

/-- Target form of an entry at a given index; an absent index is the empty
string (missing forms are empty strings, never omitted entries). -/
def formAt (t : Translation) (i : Nat) : String :=
  t.Trs.getD i ""

/-- Modelled from the spec (§4.4): non-plural resolution.  `Lookup(id, context)`
resolves to target form 0, falling back to `id` itself when the entry is
absent or its form is empty, so user-facing text is never empty. -/
def getTr (d : Domain) (id ctx : String) : String :=
  match findEntry d id ctx with
  | some t => if formAt t 0 = "" then id else formAt t 0
  | none => id

/-- Modelled from the spec (§4.4): plural resolution.
`LookupPlural(id, pluralID, count, context)` resolves to the
`select(count)`-th target form, falling back to `pluralID` itself
(count different from 1) or `id` (count equal to 1) when the entry is absent
or the required form is empty. -/
def getTrN (d : Domain) (id pid : String) (n : Int) (ctx : String) : String :=
  match findEntry d id ctx with
  | some t =>
      if formAt t (selectForm d n) = "" then (if n = 1 then id else pid)
      else formAt t (selectForm d n)
  | none => if n = 1 then id else pid

/-- Modelled from the spec (§3): a Locale holds zero or more named Domains for
one language together with the current/default domain selector. -/
structure Locale where
  path : String
  lang : String
  domains : List (String × Domain)
  defaultDomain : String
deriving DecidableEq, Repr

/-- Modelled from the spec: a freshly created empty catalog. -/
def emptyDomain (name lang : String) : Domain :=
  ⟨name, lang, none, []⟩

/-- Modelled from the spec: `NewLocale(lib, lang)` creates a Locale with no
domains loaded. -/
def NewLocale (lib lang : String) : Locale :=
  ⟨lib, lang, [], ""⟩

/-- Whether a named domain is loaded in the Locale. -/
def Locale.hasDomain (l : Locale) (dom : String) : Bool :=
  (lookupA l.domains dom).isSome

/-- Modelled from the spec: `AddDomain` loads the named catalog into the
Locale.  Reading the catalog file is external I/O outside this model; as in
the library, a missing or unreadable file yields an empty catalog. -/
def Locale.addDomain (l : Locale) (dom : String) : Locale :=
  { l with domains := insertA l.domains dom (emptyDomain dom l.lang) }

/-- Modelled from the spec: `SetDomain` selects the default domain. -/
def Locale.setDomain (l : Locale) (dom : String) : Locale :=
  { l with defaultDomain := dom }

/-- Modelled from the spec: `GetDomain` returns the selected default domain. -/
def Locale.getDomainName (l : Locale) : String :=
  l.defaultDomain

/-- Modelled from the spec (§4.4, §2): `Locale.GetD` composes the Domain
lookup with printf-style substitution; a missing domain degrades to the
original string. -/
def Locale.getD (l : Locale) (dom str : String) (vars : List Val) : String :=
  match lookupA l.domains dom with
  | some d => Printf (getTr d str "") vars
  | none => Printf str vars

/-- Modelled from the spec (§4.4): `Locale.GetND`, plural variant of
`Locale.GetD`; a missing domain degrades by the count-based fallback. -/
def Locale.getND (l : Locale) (dom str pid : String) (n : Int) (vars : List Val) : String :=
  match lookupA l.domains dom with
  | some d => Printf (getTrN d str pid n "") vars
  | none => Printf (if n = 1 then str else pid) vars

/-- Modelled from the spec (§4.4): context-scoped non-plural lookup. -/
def Locale.getDC (l : Locale) (dom str ctx : String) (vars : List Val) : String :=
  match lookupA l.domains dom with
  | some d => Printf (getTr d str ctx) vars
  | none => Printf str vars

/-- Modelled from the spec (§4.4): context-scoped plural lookup. -/
def Locale.getNDC (l : Locale) (dom str pid : String) (n : Int) (ctx : String)
    (vars : List Val) : String :=
  match lookupA l.domains dom with
  | some d => Printf (getTrN d str pid n ctx) vars
  | none => Printf (if n = 1 then str else pid) vars

/-- Embedded from src/gotext.go: the per-language configuration record
(`config`).  The `sync.RWMutex` is a runtime artefact with no counterpart in
this sequential model. -/
structure Config where
  domain : String
  language : String
  library : String
  storage : Option Locale
deriving DecidableEq, Repr

/-- Embedded from src/gotext.go: the package-level globals `configMap` and
`defaultLang`. -/
structure GoState where
  configMap : List (String × Config)
  defaultLang : String
deriving DecidableEq, Repr

/-- Embedded from src/gotext.go `loadStorage`: looks up the configuration for
`lang`, creates the Locale on first use, makes sure the configured domain is
loaded and selected, and stores the Locale back. -/
def loadStorage (st : GoState) (lang : String) : GoState :=
  match lookupA st.configMap lang with
  | none => st
  | some c =>
      let stor :=
        match c.storage with
        | some s => s
        | none => NewLocale c.library c.language
      let stor := if stor.hasDomain c.domain then stor else stor.addDomain c.domain
      let stor := stor.setDomain c.domain
      { st with configMap := insertA st.configMap lang { c with storage := some stor } }

/-- Embedded from src/gotext.go `AddConfig`: registers a configuration under
the simplified locale key, sets the package default language to the raw
`lang` argument, and loads the storage for the simplified key.  The helper
`SimplifiedLocale` is not part of the given sources, so it enters this model
as the explicit parameter `sl`. -/
def AddConfig (sl : String → String) (st : GoState) (lib lang dom : String) : GoState :=
  let k := sl lang
  let c : Config := ⟨dom, k, lib, none⟩
  loadStorage { configMap := insertA st.configMap k c, defaultLang := lang } k

/-- Embedded from src/gotext.go `SetLanguage`: stores the simplified form of
the argument as the package default language. -/
def SetLanguage (sl : String → String) (st : GoState) (l : String) : GoState :=
  { st with defaultLang := sl l }

/-- Embedded from src/gotext.go `GetDomain`: reads the configuration at the
simplified key.  A missing configuration is a nil-pointer dereference
(`config.RLock()` on nil), modelled as `none`. -/
def GetDomain (sl : String → String) (st : GoState) (lang : String) : Option String :=
  match lookupA st.configMap (sl lang) with
  | none => none
  | some c =>
      let dom :=
        match c.storage with
        | some s => s.getDomainName
        | none => ""
      some (if dom = "" then c.domain else dom)

/-- Embedded from src/gotext.go `GetLibrary`: reads `configMap[lang].library`
at the raw key; a missing configuration is a nil-pointer dereference,
modelled as `none`. -/
def GetLibrary (st : GoState) (lang : String) : Option String :=
  match lookupA st.configMap lang with
  | none => none
  | some c => some c.library

/-- Embedded from src/gotext.go `GetD`: with no configuration for the raw
default language the input is returned formatted; otherwise the domain is
loaded on demand and the Locale lookup is used.  A configuration whose
storage is nil would dereference a nil pointer, modelled as `none`. -/
def GetD (st : GoState) (dom str : String) (vars : List Val) : Option String :=
  match lookupA st.configMap st.defaultLang with
  | none => some (Printf str vars)
  | some c =>
      match c.storage with
      | none => none
      | some s =>
          let s := if s.hasDomain dom then s else s.addDomain dom
          some (s.getD dom str vars)

/-- Embedded from src/gotext.go `GetND`: with no configuration for the raw
default language the code returns `Printf(str, vars...)` — the singular
`str`, not `plural`, whatever the count. -/
def GetND (st : GoState) (dom str plural : String) (n : Int) (vars : List Val) :
    Option String :=
  match lookupA st.configMap st.defaultLang with
  | none => some (Printf str vars)
  | some c =>
      match c.storage with
      | none => none
      | some s =>
          let s := if s.hasDomain dom then s else s.addDomain dom
          some (s.getND dom str plural n vars)

/-- Embedded from src/gotext.go `GetDC` (no on-demand domain load here). -/
def GetDC (st : GoState) (dom str ctx : String) (vars : List Val) : Option String :=
  match lookupA st.configMap st.defaultLang with
  | none => some (Printf str vars)
  | some c =>
      match c.storage with
      | none => none
      | some s => some (s.getDC dom str ctx vars)

/-- Embedded from src/gotext.go `GetNDC`. -/
def GetNDC (st : GoState) (dom str plural : String) (n : Int) (ctx : String)
    (vars : List Val) : Option String :=
  match lookupA st.configMap st.defaultLang with
  | none => some (Printf str vars)
  | some c =>
      match c.storage with
      | none => none
      | some s => some (s.getNDC dom str plural n ctx vars)

/-- Embedded from src/gotext.go `Get`: resolves the default domain first
(`GetDomain`, which panics on a missing configuration) and then delegates to
`GetD`. -/
def Get (sl : String → String) (st : GoState) (str : String) (vars : List Val) :
    Option String :=
  (GetDomain sl st st.defaultLang).bind (fun dom => GetD st dom str vars)

/-- Embedded from src/gotext.go `GetN`: resolves the default domain first and
then delegates to `GetND`. -/
def GetN (sl : String → String) (st : GoState) (str plural : String) (n : Int)
    (vars : List Val) : Option String :=
  (GetDomain sl st st.defaultLang).bind (fun dom => GetND st dom str plural n vars)

/-- Embedded from src/cli/xgotext/parser/dir/parser.go: one file-system node
visited by `filepath.Walk` in walk order, identified by its path relative to
the walk root (the `filepath.Rel(dirPath, path)` value) and whether it is a
directory.  The walk itself is external file-system behaviour; the decision
logic applied to each visited node is embedded below. -/
structure WalkEntry where
  rel : String
  isDir : Bool
deriving DecidableEq, Repr

/-- Character-list string prefix test (the semantics of Go
`strings.HasPrefix(s, p)` with the arguments in the order prefix, string). -/
def charsPref : List Char → List Char → Bool
  | [], _ => true
  | _ :: _, [] => false
  | c :: cs, d :: ds => if c = d then charsPref cs ds else false

/-- Whether `p` is a raw string prefix of `s`. -/
def strHasPref (p s : String) : Bool :=
  charsPref p.data s.data

/-- Embedded from parser.go `ParseDirRec`: the exclusion test is
`strings.HasPrefix(subDir, d)` for any excluded string `d` — a raw string
prefix test, not a path-component test. -/
def excludedDir (exclude : List String) (rel : String) : Bool :=
  exclude.any (fun d => strHasPref d rel)

/-- A registered parser (`ParseDirFunc`), modelled by its observable effect
on one directory: `none` is success, `some e` an error. -/
def DirParseFn : Type := String → Option String

/-- Embedded from parser.go `ParseDir`: runs the registered parsers in order
on one directory, stopping at the first error.  The first component records
the (relative path, parser index) invocations actually performed; `j` is the
index of the first parser in `ps`. -/
def runParsersFrom (ps : List DirParseFn) (j : Nat) (rel : String) :
    List (String × Nat) × Option String :=
  match ps with
  | [] => ([], none)
  | p :: rest =>
      match p rel with
      | some e => ([(rel, j)], some e)
      | none =>
          let r := runParsersFrom rest (j + 1) rel
          ((rel, j) :: r.1, r.2)

/-- Embedded from parser.go `ParseDir`: all registered parsers, from index 0. -/
def runParsers (ps : List DirParseFn) (rel : String) :
    List (String × Nat) × Option String :=
  runParsersFrom ps 0 rel

/-- Embedded from parser.go `ParseDirRec`: walks the visited nodes in order;
a non-directory is ignored, a directory whose relative path has an excluded
string as a raw prefix is skipped (the walk function returns nil), any other
directory is handed to all registered parsers, and the first parser error
aborts the walk and is returned. -/
def ParseDirRec (ps : List DirParseFn) (entries : List WalkEntry) (exclude : List String) :
    List (String × Nat) × Option String :=
  match entries with
  | [] => ([], none)
  | e :: rest =>
      if e.isDir then
        if excludedDir exclude e.rel then ParseDirRec ps rest exclude
        else
          match (runParsers ps e.rel).2 with
          | some err => ((runParsers ps e.rel).1, some err)
          | none => ((runParsers ps e.rel).1 ++ (ParseDirRec ps rest exclude).1,
              (ParseDirRec ps rest exclude).2)
      else ParseDirRec ps rest exclude

/-- Concrete entry used by the C1 witness. -/
def c1t : Translation :=
  ⟨"apple", "", "apples", ["one apple", "many apples"], [], false⟩

/-- Concrete catalog used by the C1 witness. -/
def c1d : Domain :=
  ⟨"default", "en", none, [c1t]⟩

/-- Modelled from the spec (§6): one node of the self-describing snapshot
stream produced by the generic reflective serializer behind
`MarshalBinary`/`UnmarshalBinary` — the encoding is modelled structurally at
the level of the values the stream carries (strings, integers, booleans and
nested sequences). -/
inductive SnapV where
  | str (s : String)
  | nat (n : Nat)
  | bool (b : Bool)
  | list (xs : List SnapV)

/-- Numeric tag of a binary operator in the snapshot stream. -/
def PBin.toIdx : PBin → Nat
  | .add => 0
  | .sub => 1
  | .mul => 2
  | .div => 3
  | .mod => 4
  | .beq => 5
  | .bne => 6
  | .blt => 7
  | .ble => 8
  | .bgt => 9
  | .bge => 10
  | .band => 11
  | .bor => 12

/-- Binary operator from its numeric tag. -/
def PBin.ofIdx : Nat → Option PBin
  | 0 => some .add
  | 1 => some .sub
  | 2 => some .mul
  | 3 => some .div
  | 4 => some .mod
  | 5 => some .beq
  | 6 => some .bne
  | 7 => some .blt
  | 8 => some .ble
  | 9 => some .bgt
  | 10 => some .bge
  | 11 => some .band
  | 12 => some .bor
  | _ => none

/-- Snapshot encoding of a plural-rule expression. -/
def encE : PluralExpr → SnapV
  | .num n => .list [.nat 0, .nat n]
  | .varn => .list [.nat 1]
  | .pnot e => .list [.nat 2, encE e]
  | .bin op a b => .list [.nat 3, .nat op.toIdx, encE a, encE b]
  | .cond c t f => .list [.nat 4, encE c, encE t, encE f]

/-- Snapshot decoding of a plural-rule expression, validating the stream. -/
def decE : SnapV → Option PluralExpr
  | .list [.nat 0, .nat n] => some (.num n)
  | .list [.nat 1] => some .varn
  | .list [.nat 2, e] => (decE e).map PluralExpr.pnot
  | .list [.nat 3, .nat i, a, b] =>
      match PBin.ofIdx i, decE a, decE b with
      | some op, some ea, some eb => some (.bin op ea eb)
      | _, _, _ => none
  | .list [.nat 4, c, t, f] =>
      match decE c, decE t, decE f with
      | some ec, some et, some ef => some (.cond ec et ef)
      | _, _, _ => none
  | _ => none

/-- Snapshot encoding of an optional plural rule. -/
def encRule : Option PluralRule → SnapV
  | none => .nat 0
  | some r => .list [.nat r.nplurals, encE r.expr]

/-- Snapshot decoding of an optional plural rule. -/
def decRule : SnapV → Option (Option PluralRule)
  | .nat 0 => some none
  | .list [.nat np, e] => (decE e).map (fun ex => some ⟨np, ex⟩)
  | _ => none

/-- Snapshot encoding of one translation entry with all its fields. -/
def encTr (t : Translation) : SnapV :=
  .list [.str t.ID, .str t.Context, .str t.PluralID,
    .list (t.Trs.map SnapV.str), .list (t.Refs.map SnapV.str), .bool t.dirty]

/-- Snapshot decoding of a sequence of strings. -/
def decStrList : List SnapV → Option (List String)
  | [] => some []
  | .str s :: rest => (decStrList rest).map (fun l => s :: l)
  | _ => none

/-- Snapshot decoding of one translation entry. -/
def decTr : SnapV → Option Translation
  | .list [.str id, .str ctx, .str pid, .list trs, .list refs, .bool dy] =>
      match decStrList trs, decStrList refs with
      | some l1, some l2 => some ⟨id, ctx, pid, l1, l2, dy⟩
      | _, _ => none
  | _ => none

/-- Snapshot decoding of a sequence of translation entries. -/
def decTrList : List SnapV → Option (List Translation)
  | [] => some []
  | v :: rest =>
      match decTr v, decTrList rest with
      | some t, some ts => some (t :: ts)
      | _, _ => none

/-- Modelled from the spec (§6): `Domain.MarshalBinary` — the snapshot codec
serializes the full Domain structure (name, language, plural rule and every
entry with all of its fields). -/
def MarshalBinary (d : Domain) : SnapV :=
  .list [.str d.name, .str d.language, encRule d.pluralRule,
    .list (d.entries.map encTr)]

/-- Modelled from the spec (§6): `Domain.UnmarshalBinary` — parses a snapshot
stream back into a Domain, failing on any malformed node. -/
def UnmarshalBinary (v : SnapV) : Option Domain :=
  match v with
  | .list [.str nm, .str lg, r, .list es] =>
      match decRule r, decTrList es with
      | some pr, some ts => some ⟨nm, lg, pr, ts⟩
      | _, _ => none
  | _ => none

/-- Modelled from the spec (§4.2, §7): a text-parser failure carries the
offending line number. -/
structure SyntaxError where
  line : Nat
deriving DecidableEq, Repr

/-- Space-like characters for trimming. -/
def isSpc (c : Char) : Bool :=
  if c = ' ' ∨ c = '\t' ∨ c = '\r' ∨ c = '\n' then true else false

/-- Trim over character lists. -/
def trimChars (l : List Char) : List Char :=
  ((l.dropWhile (fun c => isSpc c)).reverse.dropWhile (fun c => isSpc c)).reverse

/-- Split a character stream at a separator character. -/
def splitOnChar (sep : Char) : List Char → List (List Char)
  | [] => [[]]
  | c :: rest =>
      if c = sep then [] :: splitOnChar sep rest
      else
        match splitOnChar sep rest with
        | [] => [[c]]
        | l :: ls => (c :: l) :: ls

/-- Lines of a catalog text. -/
def splitLines (s : String) : List String :=
  (splitOnChar '\n' s.data).map (fun l => String.mk l)

/-- Octal digit test. -/
def isOctC (c : Char) : Bool :=
  if '0' ≤ c ∧ c ≤ '7' then true else false

/-- Octal digit value. -/
def octV (c : Char) : Nat := c.toNat - 48

/-- Hexadecimal digit test. -/
def isHexC (c : Char) : Bool :=
  if c.isDigit then true
  else if 'a' ≤ c ∧ c ≤ 'f' then true
  else if 'A' ≤ c ∧ c ≤ 'F' then true
  else false

/-- Hexadecimal digit value. -/
def hexV (c : Char) : Nat :=
  if c.isDigit then c.toNat - 48
  else if 'a' ≤ c ∧ c ≤ 'f' then c.toNat - 87
  else c.toNat - 55

/-- Modelled from the spec (§4.2): C-string unescaping of a quoted literal's
content — \n, \t, \r, \", \\, \xHH and one to three octal digits; any other
escaped character stands for itself. -/
def unescapeChars : List Char → List Char
  | [] => []
  | '\\' :: rest =>
      match rest with
      | [] => ['\\']
      | 'n' :: r => '\n' :: unescapeChars r
      | 't' :: r => '\t' :: unescapeChars r
      | 'r' :: r => '\r' :: unescapeChars r
      | '"' :: r => '"' :: unescapeChars r
      | '\\' :: r => '\\' :: unescapeChars r
      | 'x' :: a :: b :: r2 =>
          if isHexC a ∧ isHexC b then
            Char.ofNat (16 * hexV a + hexV b) :: unescapeChars r2
          else 'x' :: unescapeChars (a :: b :: r2)
      | 'x' :: [a] => 'x' :: unescapeChars [a]
      | 'x' :: [] => ['x']
      | c :: c2 :: c3 :: r2 =>
          if isOctC c then
            if isOctC c2 ∧ isOctC c3 then
              Char.ofNat (64 * octV c + 8 * octV c2 + octV c3) :: unescapeChars r2
            else if isOctC c2 then
              Char.ofNat (8 * octV c + octV c2) :: unescapeChars (c3 :: r2)
            else Char.ofNat (octV c) :: unescapeChars (c2 :: c3 :: r2)
          else c :: unescapeChars (c2 :: c3 :: r2)
      | c :: [c2] =>
          if isOctC c then
            if isOctC c2 then [Char.ofNat (8 * octV c + octV c2)]
            else Char.ofNat (octV c) :: unescapeChars [c2]
          else c :: unescapeChars [c2]
      | c :: [] => if isOctC c then [Char.ofNat (octV c)] else [c]
  | c :: rest => c :: unescapeChars rest

/-- Scan the raw content of a quoted literal (after the opening quote),
keeping escape sequences intact; returns the content and the remainder after
the closing quote, or `none` for an unterminated literal. -/
def scanQuoted : List Char → Option (List Char × List Char)
  | [] => none
  | '"' :: rest => some ([], rest)
  | '\\' :: c :: rest =>
      (match scanQuoted rest with
      | some p => some ('\\' :: c :: p.1, p.2)
      | none => none)
  | c :: rest =>
      match scanQuoted rest with
      | some p => some (c :: p.1, p.2)
      | none => none

/-- Modelled from the spec (§4.2): parse one quoted, C-escaped string literal
covering the whole (trimmed) input. -/
def parseQuoted (s : String) : Option String :=
  match trimChars s.data with
  | '"' :: rest =>
      (match scanQuoted rest with
      | some p => if trimChars p.2 = [] then some (String.mk (unescapeChars p.1)) else none
      | none => none)
  | _ => none

/-- One classified catalog line. -/
inductive POLine where
  | blank
  | comment (refs : List String)
  | msgctxt (txt : String)
  | msgid (txt : String)
  | msgidPlural (txt : String)
  | msgstr (txt : String)
  | msgstrIdx (i : Nat) (txt : String)
  | strCont (txt : String)
  | bad
deriving DecidableEq, Repr

/-- Decimal value of a digit list. -/
def digitsToNat (l : List Char) : Nat :=
  l.foldl (fun a c => a * 10 + (c.toNat - 48)) 0

/-- Leading digits of a character list and the remainder. -/
def takeDigits (l : List Char) : List Char × List Char :=
  (l.takeWhile Char.isDigit, l.dropWhile Char.isDigit)

/-- Split a character list into whitespace-separated words. -/
def splitWordsAux : List Char → List Char → List String
  | [], acc => if acc = [] then [] else [String.mk acc.reverse]
  | c :: rest, acc =>
      if isSpc c then
        if acc = [] then splitWordsAux rest []
        else String.mk acc.reverse :: splitWordsAux rest []
      else splitWordsAux rest (c :: acc)

/-- Whitespace-separated words of a character list. -/
def splitWords (l : List Char) : List String :=
  splitWordsAux l []

/-- Modelled from the spec (§4.2): classify one catalog line.  Reference
comments (`#:`) contribute source references; directive lines carry one
quoted literal; a bare quoted literal continues the preceding directive. -/
def parseLine (raw : String) : POLine :=
  let t := trimChars raw.data
  if t = [] then .blank
  else if charsPref [ '#', ':' ] t then .comment (splitWords (List.drop 2 t))
  else if charsPref [ '#' ] t then .comment []
  else if charsPref ("msgid_plural".data) t then
    match parseQuoted (String.mk (List.drop 12 t)) with
    | some x => .msgidPlural x
    | none => .bad
  else if charsPref ("msgctxt".data) t then
    match parseQuoted (String.mk (List.drop 7 t)) with
    | some x => .msgctxt x
    | none => .bad
  else if charsPref ("msgid".data) t then
    match parseQuoted (String.mk (List.drop 5 t)) with
    | some x => .msgid x
    | none => .bad
  else if charsPref ("msgstr[".data) t then
    let p := takeDigits (List.drop 7 t)
    match p.1, p.2 with
    | [], _ => .bad
    | ds, ']' :: rest =>
        (match parseQuoted (String.mk rest) with
        | some x => .msgstrIdx (digitsToNat ds) x
        | none => .bad)
    | _, _ => .bad
  else if charsPref ("msgstr".data) t then
    match parseQuoted (String.mk (List.drop 6 t)) with
    | some x => .msgstr x
    | none => .bad
  else if charsPref [ '"' ] t then
    match parseQuoted (String.mk t) with
    | some x => .strCont x
    | none => .bad
  else .bad

/-- Which field a continuation line appends to. -/
inductive LastF where
  | fctx
  | fid
  | fpid
  | fstr (i : Nat)
deriving DecidableEq, Repr

/-- The record being assembled by the state machine. -/
structure RecState where
  startLine : Nat
  rctx : Option String
  rid : Option String
  rpid : Option String
  strs : List (Nat × String)
  refs : List String
  lastF : Option LastF
deriving DecidableEq, Repr

/-- A fresh record started at the given line. -/
def emptyRec (ln : Nat) : RecState :=
  ⟨ln, none, none, none, [], [], none⟩

/-- Append continuation text to the field the previous directive selected
(string literals on consecutive lines concatenate). -/
def appendField (st : RecState) (f : LastF) (txt : String) : RecState :=
  match f with
  | .fctx => { st with rctx := some ((st.rctx.getD "") ++ txt) }
  | .fid => { st with rid := some ((st.rid.getD "") ++ txt) }
  | .fpid => { st with rpid := some ((st.rpid.getD "") ++ txt) }
  | .fstr i => { st with strs := insertA st.strs i (((lookupA st.strs i).getD "") ++ txt) }

/-- Modelled from the spec (§4.2): apply one classified line to the current
record.  A duplicated `msgctxt`/`msgid`/`msgid_plural` within a record and a
continuation with no preceding directive are SyntaxErrors at that line. -/
def applyLine (st : RecState) (ln : Nat) : POLine → Except SyntaxError RecState
  | .comment refs => .ok { st with refs := st.refs ++ refs }
  | .msgctxt x =>
      if st.rctx.isSome then .error ⟨ln⟩
      else .ok { st with rctx := some x, lastF := some .fctx }
  | .msgid x =>
      if st.rid.isSome then .error ⟨ln⟩
      else .ok { st with rid := some x, lastF := some .fid }
  | .msgidPlural x =>
      if st.rpid.isSome then .error ⟨ln⟩
      else .ok { st with rpid := some x, lastF := some .fpid }
  | .msgstr x => .ok { st with strs := insertA st.strs 0 x, lastF := some (.fstr 0) }
  | .msgstrIdx i x => .ok { st with strs := insertA st.strs i x, lastF := some (.fstr i) }
  | .strCont x =>
      (match st.lastF with
      | none => .error ⟨ln⟩
      | some f => .ok (appendField st f x))
  | .blank => .ok st
  | .bad => .error ⟨ln⟩

/-- Largest declared form index of a record. -/
def maxIdx (l : List (Nat × String)) : Nat :=
  l.foldl (fun a p => max a p.1) 0

/-- Modelled from the spec (§4.2): close the current record.  A record with
directives but no msgid is a SyntaxError at the record's first line; indexed
forms are placed by explicit index with missing indices as empty strings; an
entry whose every target form is empty is marked dirty but retained. -/
def finalizeRec (st : RecState) : Except SyntaxError (Option Translation) :=
  match st.rid with
  | some id =>
      let trs := (List.range (maxIdx st.strs + 1)).map
        (fun i => (lookupA st.strs i).getD "")
      .ok (some ⟨id, st.rctx.getD "", st.rpid.getD "", trs, st.refs,
        trs.all (fun s => s = "")⟩)
  | none =>
      if st.rctx = none ∧ st.rpid = none ∧ st.strs = [] then .ok none
      else .error ⟨st.startLine⟩

/-- Modelled from the spec (§4.2): last-write-wins insertion keyed by
(ID, Context), keeping the original insertion position. -/
def replaceEntry : List Translation → Translation → List Translation
  | [], t => [t]
  | u :: rest, t =>
      if u.ID = t.ID ∧ u.Context = t.Context then t :: rest
      else u :: replaceEntry rest t

/-- Insert or overwrite one entry of a Domain. -/
def addEntry (d : Domain) (t : Translation) : Domain :=
  { d with entries := replaceEntry d.entries t }

/-- Tokens of the plural-rule expression language. -/
inductive PTok where
  | num (n : Nat)
  | varn
  | lpar
  | rpar
  | bang
  | op (b : PBin)
  | quest
  | colon
deriving DecidableEq, Repr

/-- Modelled from the spec (§4.1): tokenizer for the C-subset expression
grammar; the fuel bounds recursion and is always sufficient at `length + 1`. -/
def tokenizeE : Nat → List Char → Option (List PTok)
  | 0, _ => none
  | _ + 1, [] => some []
  | fuel + 1, c :: rest =>
      if isSpc c then tokenizeE fuel rest
      else if c.isDigit then
        let p := takeDigits (c :: rest)
        match tokenizeE fuel p.2 with
        | some ts => some (.num (digitsToNat p.1) :: ts)
        | none => none
      else if c = 'n' then (tokenizeE fuel rest).map (fun ts => .varn :: ts)
      else if c = '(' then (tokenizeE fuel rest).map (fun ts => .lpar :: ts)
      else if c = ')' then (tokenizeE fuel rest).map (fun ts => .rpar :: ts)
      else if c = '?' then (tokenizeE fuel rest).map (fun ts => .quest :: ts)
      else if c = ':' then (tokenizeE fuel rest).map (fun ts => .colon :: ts)
      else if c = '+' then (tokenizeE fuel rest).map (fun ts => .op .add :: ts)
      else if c = '-' then (tokenizeE fuel rest).map (fun ts => .op .sub :: ts)
      else if c = '*' then (tokenizeE fuel rest).map (fun ts => .op .mul :: ts)
      else if c = '/' then (tokenizeE fuel rest).map (fun ts => .op .div :: ts)
      else if c = '%' then (tokenizeE fuel rest).map (fun ts => .op .mod :: ts)
      else
        match c, rest with
        | '=', '=' :: r2 => (tokenizeE fuel r2).map (fun ts => .op .beq :: ts)
        | '!', '=' :: r2 => (tokenizeE fuel r2).map (fun ts => .op .bne :: ts)
        | '!', _ => (tokenizeE fuel rest).map (fun ts => .bang :: ts)
        | '<', '=' :: r2 => (tokenizeE fuel r2).map (fun ts => .op .ble :: ts)
        | '<', _ => (tokenizeE fuel rest).map (fun ts => .op .blt :: ts)
        | '>', '=' :: r2 => (tokenizeE fuel r2).map (fun ts => .op .bge :: ts)
        | '>', _ => (tokenizeE fuel rest).map (fun ts => .op .bgt :: ts)
        | '&', '&' :: r2 => (tokenizeE fuel r2).map (fun ts => .op .band :: ts)
        | '|', '|' :: r2 => (tokenizeE fuel r2).map (fun ts => .op .bor :: ts)
        | _, _ => none

/-- C precedence level of a binary operator (1 lowest binary, 6 highest). -/
def levelOf : PBin → Nat
  | .bor => 1
  | .band => 2
  | .beq => 3
  | .bne => 3
  | .blt => 4
  | .ble => 4
  | .bgt => 4
  | .bge => 4
  | .add => 5
  | .sub => 5
  | .mul => 6
  | .div => 6
  | .mod => 6

mutual

/-- Modelled from the spec (§4.1): recursive-descent parser with standard C
precedence — level 0 is the ternary conditional (lowest, right associative),
levels 1 to 6 the left-associative binary operators, 7 unary `!` and 8 the
atoms (integer literal, `n`, parenthesised expression). -/
def parseE : Nat → Nat → List PTok → Option (PluralExpr × List PTok)
  | 0, _, _ => none
  | fuel + 1, lvl, ts =>
      if lvl = 8 then
        match ts with
        | .num n :: rest => some (.num n, rest)
        | .varn :: rest => some (.varn, rest)
        | .lpar :: rest =>
            (match parseE fuel 0 rest with
            | some (e, .rpar :: rest2) => some (e, rest2)
            | _ => none)
        | _ => none
      else if lvl = 7 then
        match ts with
        | .bang :: rest =>
            (match parseE fuel 7 rest with
            | some (e, rest2) => some (.pnot e, rest2)
            | none => none)
        | _ => parseE fuel 8 ts
      else if lvl = 0 then
        match parseE fuel 1 ts with
        | some (c, .quest :: rest) =>
            (match parseE fuel 0 rest with
            | some (t, .colon :: rest2) =>
                (match parseE fuel 0 rest2 with
                | some (f, rest3) => some (.cond c t f, rest3)
                | none => none)
            | _ => none)
        | some (c, rest) => some (c, rest)
        | none => none
      else
        match parseE fuel (lvl + 1) ts with
        | some (a, rest) => parseBinLoop fuel lvl a rest
        | none => none

/-- Left-associative loop for one binary precedence level. -/
def parseBinLoop : Nat → Nat → PluralExpr → List PTok → Option (PluralExpr × List PTok)
  | 0, _, a, ts => some (a, ts)
  | fuel + 1, lvl, a, ts =>
      match ts with
      | .op b :: rest =>
          if levelOf b = lvl then
            match parseE fuel (lvl + 1) rest with
            | some (rhs, rest2) => parseBinLoop fuel lvl (.bin b a rhs) rest2
            | none => none
          else some (a, ts)
      | _ => some (a, ts)

end

/-- Modelled from the spec (§4.1): parse a complete plural-rule expression. -/
def parsePluralExpr (s : String) : Option PluralExpr :=
  match tokenizeE (s.data.length + 1) s.data with
  | some ts =>
      (match parseE (ts.length * 12 + 12) 0 ts with
      | some (e, []) => some e
      | _ => none)
  | none => none

/-- Modelled from the spec (§4.1): parse a `nplurals=N; plural=EXPR;` header
declaration into a rule. -/
def parsePluralForms (s : String) : Option PluralRule :=
  let parts := (splitOnChar ';' s.data).map trimChars
  let np := parts.findSome? (fun p =>
    if charsPref ("nplurals=".data) p then
      let ds := List.drop 9 p
      if ds ≠ [] ∧ ds.all Char.isDigit then some (digitsToNat ds) else none
    else none)
  let pl := parts.findSome? (fun p =>
    if charsPref ("plural=".data) p then parsePluralExpr (String.mk (List.drop 7 p))
    else none)
  match np, pl with
  | some k, some e => some ⟨k, e⟩
  | _, _ => none

/-- Modelled from the spec (§4.2): the header record (empty ID, no context)
carries newline-separated `Key: Value` metadata from which `Language` and
`Plural-Forms` are extracted and applied to the Domain.  A declaration that
does not parse leaves the default rule in place; under the §4.2 contract the
text parser itself fails only with SyntaxError values. -/
def applyHeader (d : Domain) (t : Translation) : Domain :=
  if t.ID = "" ∧ t.Context = "" then
    let meta := (splitOnChar '\n' (formAt t 0).data).map trimChars
    let d1 :=
      match meta.findSome? (fun l =>
        if charsPref ("Language:".data) l then some (trimChars (List.drop 9 l)) else none) with
      | some v => { d with language := String.mk v }
      | none => d
    match meta.findSome? (fun l =>
      if charsPref ("Plural-Forms:".data) l then some (trimChars (List.drop 13 l)) else none) with
    | some v =>
        (match parsePluralForms (String.mk v) with
        | some r => { d1 with pluralRule := some r }
        | none => d1)
    | none => d1
  else d

/-- Install one finished record: store the entry and, for the header record,
apply its metadata. -/
def installEntry (d : Domain) (t : Translation) : Domain :=
  applyHeader (addEntry d t) t

/-- Number the lines starting at a given line number. -/
def numberFrom : Nat → List String → List (Nat × String)
  | _, [] => []
  | k, s :: rest => (k, s) :: numberFrom (k + 1) rest

/-- Modelled from the spec (§4.2): the line-oriented state machine over
logical records separated by blank lines; `cur` is the record being
assembled. -/
def poLoop : List (Nat × String) → Option RecState → Domain → Except SyntaxError Domain
  | [], cur, d =>
      (match cur with
      | none => .ok d
      | some st =>
          match finalizeRec st with
          | .error e => .error e
          | .ok none => .ok d
          | .ok (some t) => .ok (installEntry d t))
  | (ln, s) :: rest, cur, d =>
      match parseLine s with
      | .blank =>
          (match cur with
          | none => poLoop rest none d
          | some st =>
              match finalizeRec st with
              | .error e => .error e
              | .ok none => poLoop rest none d
              | .ok (some t) => poLoop rest none (installEntry d t))
      | .bad => .error ⟨ln⟩
      | pl =>
          match applyLine ((cur.getD (emptyRec ln))) ln pl with
          | .error e => .error e
          | .ok st2 => poLoop rest (some st2) d

/-- Modelled from the spec (§4.2): consume the full text of a catalog and
return a populated Domain, or fail with a SyntaxError carrying the offending
line number. -/
def poParse (s : String) : Except SyntaxError Domain :=
  poLoop (numberFrom 1 (splitLines s)) none (emptyDomain "default" "")

/-- Modelled from the spec (§7): all-or-nothing installation — a parse
failure leaves the caller's Domain unchanged and surfaces the typed error. -/
def loadCatalog (cur : Domain) (s : String) : Domain × Option SyntaxError :=
  match poParse s with
  | .ok d => (d, none)
  | .error e => (cur, some e)

/-- Modelled from the spec (§4.4, §9): scalar cell of a stored translation
entry; the Forms and References containers live at separate store addresses
(`trsRef`, `refsRef`), modelling the container headers inside a Go
`*Translation`. -/
structure TrCell where
  cID : String
  cPluralID : String
  cDirty : Bool
  trsRef : Nat
  refsRef : Nat
deriving DecidableEq, Repr

/-- Modelled from the spec (§9): an explicit store giving entry cells and
container cells addresses, so aliasing between the Domain's stored entries
and the copies returned by enumeration is observable. -/
structure Heap where
  cells : List TrCell
  pools : List (List String)
deriving DecidableEq, Repr

/-- Entry cell at an address. -/
def readCell (h : Heap) (a : Nat) : Option TrCell :=
  h.cells[a]?

/-- Container contents at an address. -/
def readPool (h : Heap) (b : Nat) : Option (List String) :=
  h.pools[b]?

/-- Observable content of a stored entry: ID, PluralID, dirty flag and the
contents of the Forms and References containers. -/
def readEntry (h : Heap) (a : Nat) :
    Option (String × String × Bool × List String × List String) :=
  match readCell h a with
  | some c =>
      (match readPool h c.trsRef, readPool h c.refsRef with
      | some trs, some refs => some (c.cID, c.cPluralID, c.cDirty, trs, refs)
      | _, _ => none)
  | none => none

/-- In-place update of one container — the observable effect of a caller
mutating a returned entry's Forms or References. -/
def writePool (h : Heap) (b : Nat) (v : List String) : Heap :=
  ⟨h.cells, h.pools.set b v⟩

/-- In-place update of one entry cell — the observable effect of a caller
mutating a returned entry's scalar fields. -/
def writeCell (h : Heap) (a : Nat) (c : TrCell) : Heap :=
  ⟨h.cells.set a c, h.pools⟩

/-- A valid stored entry address: the cell and both its containers exist. -/
def validRef (h : Heap) (a : Nat) : Prop :=
  (readEntry h a).isSome = true

/-- Modelled from the spec (§9): deep copy of one entry — two fresh container
cells receive copies of the Forms and References contents and a fresh entry
cell points at them; the address of the fresh entry cell is returned. -/
def copyEntry (h : Heap) (c : TrCell) : Heap × Nat :=
  (⟨h.cells ++ [⟨c.cID, c.cPluralID, c.cDirty, h.pools.length, h.pools.length + 1⟩],
      h.pools ++ [(readPool h c.trsRef).getD [], (readPool h c.refsRef).getD []]⟩,
    h.cells.length)

/-- Modelled from the spec (§4.4): `GetTranslations` (Enumerate) — returns
fresh deep copies of all stored entries, leaving the stored entries in
place. -/
def getTranslations (h : Heap) : List Nat → Heap × List Nat
  | [] => (h, [])
  | a :: rest =>
      match readCell h a with
      | none => getTranslations h rest
      | some c =>
          let p := copyEntry h c
          let q := getTranslations p.1 rest
          (q.1, p.2 :: q.2)

theorem lookupA_insertA_self {κ α : Type} [DecidableEq κ] (m : List (κ × α)) (k : κ) (v : α) :
    lookupA (insertA m k v) k = some v := by
  induction m with
  | nil => simp [insertA, lookupA]
  | cons p rest ih =>
      obtain ⟨k0, v0⟩ := p
      by_cases h : k0 = k
      · simp [insertA, h, lookupA]
      · simp [insertA, h, lookupA, ih]

theorem lookupA_insertA_ne {κ α : Type} [DecidableEq κ] (m : List (κ × α)) (k key : κ)
    (v : α) (h : key ≠ k) : lookupA (insertA m k v) key = lookupA m key := by
  have h2 : k ≠ key := Ne.symm h
  induction m with
  | nil => simp [insertA, lookupA, h2]
  | cons p rest ih =>
      obtain ⟨k0, v0⟩ := p
      by_cases h0 : k0 = k
      · subst h0
        simp [insertA, lookupA, h2]
      · simp [insertA, h0, lookupA, ih]

theorem lookupA_some_mem {κ α : Type} [DecidableEq κ] (m : List (κ × α)) (key : κ)
    (v : α) (h : lookupA m key = some v) : (key, v) ∈ m := by
  induction m with
  | nil => simp [lookupA] at h
  | cons p rest ih =>
      obtain ⟨k0, v0⟩ := p
      by_cases h0 : k0 = key
      · subst h0
        simp [lookupA] at h
        simp [h]
      · simp [lookupA, h0] at h
        exact List.mem_cons_of_mem _ (ih h)

theorem lookupA_none_of_keys_fixed {α : Type} (sl : String → String)
    (m : List (String × α)) (lang : String)
    (hfix : ∀ k c, (k, c) ∈ m → sl k = k) (h : sl lang ≠ lang) :
    lookupA m lang = none := by
  cases hl : lookupA m lang with
  | none => rfl
  | some c => exact absurd (hfix lang c (lookupA_some_mem m lang c hl)) h

/-- Claim C6: for every catalog that declares no plural rule, the Domain uses
the default two-form rule — the declared form count equals 2 and the selector
maps a count of 1 to form 0 and every other count to form 1. -/
theorem c6_default_plural_rule (d : Domain) (h : d.pluralRule = none) (n : Int) :
    npluralsOf d = 2 ∧ selectForm d n = (if n = 1 then 0 else 1) := by
  constructor
  · simp [npluralsOf, h]
  · simp [selectForm, h]

/-- Witness for C6 at the empty catalog and the count 5. -/
theorem c6_default_plural_rule_witness :
    npluralsOf (emptyDomain "default" "en_US") = 2 ∧
      selectForm (emptyDomain "default" "en_US") 5 = (if (5 : Int) = 1 then 0 else 1) :=
  c6_default_plural_rule (emptyDomain "default" "en_US") rfl 5

/-- Claim C1 counterexample: on an unconfigured registry the package-level
`GetND("default", "one item", "%d items", 5, 5)` returns the singular id
`"one item"` formatted — not `"%d items"` formatted with 5 as the claim
requires for a count different from 1 (src/gotext.go line 195 returns
`Printf(str, vars...)`). -/
theorem c1_getnd_fallback_counterexample :
    GetND ⟨[], "en_US"⟩ "default" "one item" "%d items" 5 [Val.i 5]
        = some (Printf "one item" [Val.i 5]) ∧
      Printf "one item" [Val.i 5] = "one item" ∧
      Printf "%d items" [Val.i 5] = "5 items" ∧
      GetND ⟨[], "en_US"⟩ "default" "one item" "%d items" 5 [Val.i 5] ≠ some "5 items" := by
  refine ⟨rfl, rfl, rfl, ?_⟩
  decide

/-- Claim C1 (amended): the Domain-level plural lookup resolves to the
select(count)-th target form, and when the entry is absent or the required
form is empty it falls back to pluralID (count different from 1) or id
(count equal to 1); on an empty Domain `LookupPlural("one item", "%d items",
5, "")` resolves to `"%d items"` and the Locale layer formats it with 5 to
`"5 items"`.  However, the package-level `GetND` with no configuration for
the raw default language returns the singular `str` formatted with the
arguments, whatever the count; and `GetN`, which resolves the default domain
first, panics in `GetDomain` when the simplified default language is also
unregistered, and likewise returns the formatted singular `str` when a
configuration exists under the simplified key but not under the raw default
language. -/
theorem c1_plural_lookup (d : Domain) (id pid ctx : String) (n : Int) :
    (∀ t, findEntry d id ctx = some t → formAt t (selectForm d n) ≠ "" →
        getTrN d id pid n ctx = formAt t (selectForm d n)) ∧
      (∀ t, findEntry d id ctx = some t → formAt t (selectForm d n) = "" →
        getTrN d id pid n ctx = (if n = 1 then id else pid)) ∧
      (findEntry d id ctx = none →
        getTrN d id pid n ctx = (if n = 1 then id else pid)) ∧
      getTrN (emptyDomain "default" "") "one item" "%d items" 5 "" = "%d items" ∧
      Locale.getND (NewLocale "." "en_US") "default" "one item" "%d items" 5 [Val.i 5]
        = "5 items" ∧
      (∀ st : GoState, lookupA st.configMap st.defaultLang = none →
        ∀ dom vars, GetND st dom id pid n vars = some (Printf id vars)) ∧
      (∀ (sl : String → String) (st : GoState),
        lookupA st.configMap (sl st.defaultLang) = none →
        ∀ vars, GetN sl st id pid n vars = none) ∧
      (∀ (sl : String → String) (st : GoState) c,
        lookupA st.configMap (sl st.defaultLang) = some c →
        lookupA st.configMap st.defaultLang = none →
        ∀ vars, GetN sl st id pid n vars = some (Printf id vars)) := by
  refine ⟨?_, ?_, ?_, rfl, rfl, ?_, ?_, ?_⟩
  · intro t ht hf
    simp [getTrN, ht, hf]
  · intro t ht hf
    simp [getTrN, ht, hf]
  · intro h
    simp [getTrN, h]
  · intro st h dom vars
    simp [GetND, h]
  · intro sl st h vars
    simp [GetN, GetDomain, h]
  · intro sl st c hs hr vars
    simp [GetN, GetDomain, hs, GetND, hr]

/-- Witness for C1 at a concrete two-form catalog, a missing entry, the
unconfigured registry, and both GetN situations. -/
theorem c1_plural_lookup_witness :
    getTrN c1d "apple" "apples" 2 "" = formAt c1t (selectForm c1d 2) ∧
      getTrN c1d "missing" "missings" 2 "" = (if (2 : Int) = 1 then "missing" else "missings") ∧
      GetND ⟨[], "xx"⟩ "dom" "apple" "apples" 2 [] = some (Printf "apple" []) ∧
      GetN (fun s => s) ⟨[], "xx"⟩ "apple" "apples" 2 [] = none ∧
      GetN (fun _ => "en")
        ⟨[("en", ⟨"default", "en", "/l", some (NewLocale "/l" "en")⟩)], "en-US"⟩
        "apple" "apples" 2 [] = some (Printf "apple" []) := by
  refine ⟨?_, ?_, ?_, ?_, ?_⟩
  · exact (c1_plural_lookup c1d "apple" "apples" "" 2).1 c1t (by decide) (by decide)
  · exact (c1_plural_lookup c1d "missing" "missings" "" 2).2.2.1 (by decide)
  · exact (c1_plural_lookup c1d "apple" "apples" "" 2).2.2.2.2.2.1 ⟨[], "xx"⟩ (by decide)
      "dom" []
  · exact (c1_plural_lookup c1d "apple" "apples" "" 2).2.2.2.2.2.2.1 (fun s => s)
      ⟨[], "xx"⟩ (by decide) []
  · exact (c1_plural_lookup c1d "apple" "apples" "" 2).2.2.2.2.2.2.2 (fun _ => "en")
      ⟨[("en", ⟨"default", "en", "/l", some (NewLocale "/l" "en")⟩)], "en-US"⟩
      ⟨"default", "en", "/l", some (NewLocale "/l" "en")⟩ rfl (by decide) []

/-- Claim C2 counterexample: the plural lookup with a non-empty id, an empty
pluralID and a count different from 1 resolves to the empty string — at the
Domain level, at the Locale level with arguments supplied, and at the
package level over a configured registry — so absence of a translation can
yield an empty result for a non-empty id. -/
theorem c2_plural_empty_counterexample :
    getTrN (emptyDomain "default" "") "one item" "" 5 "" = "" ∧
      Locale.getND (Locale.addDomain (NewLocale "/l" "en") "default") "default"
        "one item" "" 5 [Val.i 5] = "" ∧
      GetND ⟨[("en", ⟨"default", "en", "/l",
          some (Locale.addDomain (NewLocale "/l" "en") "default")⟩)], "en"⟩
        "default" "one item" "" 5 [Val.i 5] = some "" ∧
      ("one item" : String) ≠ "" := by
  refine ⟨rfl, rfl, rfl, by decide⟩

/-- Claim C2 (amended): printf-style substitution is always applied to the
resolved string on both the non-plural and the plural path; when no
translation entry exists (or no catalog is configured) the original
untranslated string is still formatted with the supplied arguments — for the
plural lookup the original is the count-selected source string (id when
count is 1, pluralID otherwise).  Non-plural resolution never yields an
empty string for a non-empty id; plural resolution never yields an empty
string when the count-selected source string is non-empty (with an empty
pluralID and count different from 1 it does yield the empty string). -/
theorem c2_substitution_never_suppressed (st : GoState) (l : Locale) (d : Domain)
    (dom str pid ctx : String) (n : Int) (vars : List Val) :
    (lookupA st.configMap st.defaultLang = none →
        GetD st dom str vars = some (Printf str vars) ∧
        GetND st dom str pid n vars = some (Printf str vars) ∧
        GetDC st dom str ctx vars = some (Printf str vars) ∧
        GetNDC st dom str pid n ctx vars = some (Printf str vars)) ∧
      (lookupA l.domains dom = none →
        Locale.getD l dom str vars = Printf str vars) ∧
      (findEntry d str ctx = none → getTr d str ctx = str) ∧
      (∀ d0, lookupA l.domains dom = some d0 →
        Locale.getDC l dom str ctx vars = Printf (getTr d0 str ctx) vars) ∧
      (str ≠ "" → getTr d str ctx ≠ "") ∧
      (findEntry d str ctx = none →
        getTrN d str pid n ctx = (if n = 1 then str else pid)) ∧
      (∀ d0, lookupA l.domains dom = some d0 →
        Locale.getND l dom str pid n vars = Printf (getTrN d0 str pid n "") vars ∧
        Locale.getNDC l dom str pid n ctx vars = Printf (getTrN d0 str pid n ctx) vars) ∧
      (lookupA l.domains dom = none →
        Locale.getND l dom str pid n vars = Printf (if n = 1 then str else pid) vars) ∧
      ((if n = 1 then str else pid) ≠ "" → getTrN d str pid n ctx ≠ "") := by
  refine ⟨?_, ?_, ?_, ?_, ?_, ?_, ?_, ?_, ?_⟩
  · intro h
    exact ⟨by simp [GetD, h], by simp [GetND, h], by simp [GetDC, h], by simp [GetNDC, h]⟩
  · intro h
    simp [Locale.getD, h]
  · intro h
    simp [getTr, h]
  · intro d0 h
    simp [Locale.getDC, h]
  · intro hne
    unfold getTr
    cases hfe : findEntry d str ctx with
    | none => simpa using hne
    | some t =>
        by_cases hf : formAt t 0 = ""
        · simpa [hf] using hne
        · simp [hf]
  · intro h
    simp [getTrN, h]
  · intro d0 h
    exact ⟨by simp [Locale.getND, h], by simp [Locale.getNDC, h]⟩
  · intro h
    simp [Locale.getND, h]
  · intro hne
    unfold getTrN
    cases hfe : findEntry d str ctx with
    | none => exact hne
    | some t =>
        by_cases hf : formAt t (selectForm d n) = ""
        · simpa [hf] using hne
        · simp [hf]

/-- Witness for C2 at the unconfigured registry, an empty Locale and an empty
catalog, on both the non-plural and the plural path. -/
theorem c2_substitution_witness :
    GetD ⟨[], "xx"⟩ "default" "hi %s" [Val.s "w"] = some (Printf "hi %s" [Val.s "w"]) ∧
      Locale.getD (NewLocale "." "en") "default" "hi %s" [Val.s "w"]
        = Printf "hi %s" [Val.s "w"] ∧
      getTr (emptyDomain "d" "") "hi %s" "" = "hi %s" ∧
      getTr (emptyDomain "d" "") "hi %s" "" ≠ "" ∧
      getTrN (emptyDomain "d" "") "hi %s" "his %s" 2 ""
        = (if (2 : Int) = 1 then "hi %s" else "his %s") ∧
      Locale.getND (NewLocale "." "en") "default" "hi %s" "his %s" 2 [Val.s "w"]
        = Printf (if (2 : Int) = 1 then "hi %s" else "his %s") [Val.s "w"] ∧
      getTrN (emptyDomain "d" "") "hi %s" "his %s" 2 "" ≠ "" := by
  have h := c2_substitution_never_suppressed ⟨[], "xx"⟩ (NewLocale "." "en")
      (emptyDomain "d" "") "default" "hi %s" "his %s" "" 2 [Val.s "w"]
  exact ⟨(h.1 (by decide)).1, h.2.1 (by decide), h.2.2.1 (by decide),
    h.2.2.2.2.1 (by decide), h.2.2.2.2.2.1 (by decide), h.2.2.2.2.2.2.2.1 (by decide),
    h.2.2.2.2.2.2.2.2 (by decide)⟩

theorem loadStorage_defaultLang (st : GoState) (lang : String) :
    (loadStorage st lang).defaultLang = st.defaultLang := by
  unfold loadStorage
  cases h : lookupA st.configMap lang <;> simp

theorem addConfig_configMap (sl : String → String) (st : GoState) (lib lang dom : String) :
    (AddConfig sl st lib lang dom).configMap
      = insertA (insertA st.configMap (sl lang) ⟨dom, sl lang, lib, none⟩) (sl lang)
          ⟨dom, sl lang, lib, some (((NewLocale lib (sl lang)).addDomain dom).setDomain dom)⟩ := by
  unfold AddConfig loadStorage
  simp [lookupA_insertA_self, Locale.hasDomain, NewLocale, lookupA]

/-- Claim C8: after `AddConfig(lib, lang, dom)` the configuration is stored
under the simplified locale key while the package default language is the raw
`lang`; therefore when `lang` differs from its simplified form every
subsequent package-level lookup misses the registry and returns the
untranslated input formatted with its arguments, and when `lang` equals its
simplified form the registry lookup hits the registered catalog. -/
theorem c8_addconfig_raw_default_lang (sl : String → String) (st : GoState)
    (lib lang dom dom2 str pid : String) (n : Int) (vars : List Val)
    (hfix : ∀ k c, (k, c) ∈ st.configMap → sl k = k) :
    (AddConfig sl st lib lang dom).defaultLang = lang ∧
      (lookupA (AddConfig sl st lib lang dom).configMap (sl lang)).isSome = true ∧
      (lang ≠ sl lang →
        GetD (AddConfig sl st lib lang dom) dom2 str vars = some (Printf str vars) ∧
        GetND (AddConfig sl st lib lang dom) dom2 str pid n vars = some (Printf str vars) ∧
        Get sl (AddConfig sl st lib lang dom) str vars = some (Printf str vars) ∧
        GetN sl (AddConfig sl st lib lang dom) str pid n vars = some (Printf str vars)) ∧
      (lang = sl lang →
        (lookupA (AddConfig sl st lib lang dom).configMap lang).isSome = true) := by
  have hcfg := addConfig_configMap sl st lib lang dom
  have hdl : (AddConfig sl st lib lang dom).defaultLang = lang := by
    simp [AddConfig, loadStorage_defaultLang]
  have hsome : lookupA (AddConfig sl st lib lang dom).configMap (sl lang)
      = some ⟨dom, sl lang, lib, some (((NewLocale lib (sl lang)).addDomain dom).setDomain dom)⟩ := by
    rw [hcfg]
    exact lookupA_insertA_self _ _ _
  refine ⟨hdl, by simp [hsome], ?_, ?_⟩
  · intro hne
    have hraw : lookupA (AddConfig sl st lib lang dom).configMap lang = none := by
      rw [hcfg, lookupA_insertA_ne _ _ _ _ hne, lookupA_insertA_ne _ _ _ _ hne]
      exact lookupA_none_of_keys_fixed sl _ lang hfix (Ne.symm hne)
    refine ⟨?_, ?_, ?_, ?_⟩
    · simp [GetD, hdl, hraw]
    · simp [GetND, hdl, hraw]
    · simp [Get, GetDomain, hdl, hsome, GetD, hraw]
    · simp [GetN, GetDomain, hdl, hsome, GetND, hraw]
  · intro heq
    have hsome2 := hsome
    rw [← heq] at hsome2
    simp [hsome2]

/-- Witness for C8 with a simplifier that maps every language to "en" and the
raw language "en-US". -/
theorem c8_addconfig_witness :
    (AddConfig (fun _ => "en") ⟨[], ""⟩ "/lib" "en-US" "messages").defaultLang = "en-US" ∧
      (lookupA (AddConfig (fun _ => "en") ⟨[], ""⟩ "/lib" "en-US" "messages").configMap
        "en").isSome = true ∧
      GetD (AddConfig (fun _ => "en") ⟨[], ""⟩ "/lib" "en-US" "messages") "d2" "hello %s"
        [Val.s "w"] = some (Printf "hello %s" [Val.s "w"]) ∧
      Get (fun _ => "en") (AddConfig (fun _ => "en") ⟨[], ""⟩ "/lib" "en-US" "messages")
        "hello %s" [Val.s "w"] = some (Printf "hello %s" [Val.s "w"]) := by
  have h := c8_addconfig_raw_default_lang (fun _ => "en") ⟨[], ""⟩ "/lib" "en-US" "messages"
      "d2" "hello %s" "" 1 [Val.s "w"] (by intro k c hk; cases hk)
  have hne : "en-US" ≠ "en" := by decide
  exact ⟨h.1, h.2.1, (h.2.2.1 hne).1, (h.2.2.1 hne).2.2.1⟩

/-- Claim C9: when no configuration is registered under the simplified form
of `lang`, `GetDomain` and `GetLibrary` dereference a nil configuration
pointer (modelled as `none` — a panic, not a typed error), while
`GetD`/`GetND`/`GetDC`/`GetNDC` guard the same case and return the formatted
input; hence `Get` and `GetN`, which call `GetDomain` first, also panic when
no configuration exists for the default language. -/
theorem c9_missing_config_panics (sl : String → String) (st : GoState)
    (lang dom str pid ctx : String) (n : Int) (vars : List Val)
    (hfix : ∀ k c, (k, c) ∈ st.configMap → sl k = k)
    (hmiss : lookupA st.configMap (sl lang) = none) :
    GetDomain sl st lang = none ∧
      GetLibrary st lang = none ∧
      (st.defaultLang = lang →
        GetD st dom str vars = some (Printf str vars) ∧
        GetND st dom str pid n vars = some (Printf str vars) ∧
        GetDC st dom str ctx vars = some (Printf str vars) ∧
        GetNDC st dom str pid n ctx vars = some (Printf str vars) ∧
        Get sl st str vars = none ∧
        GetN sl st str pid n vars = none) := by
  have hraw : lookupA st.configMap lang = none := by
    by_cases hsl : sl lang = lang
    · rw [← hsl]
      exact hmiss
    · exact lookupA_none_of_keys_fixed sl _ lang hfix hsl
  refine ⟨by simp [GetDomain, hmiss], by simp [GetLibrary, hraw], ?_⟩
  intro hdl
  have hdef : lookupA st.configMap st.defaultLang = none := by
    rw [hdl]
    exact hraw
  refine ⟨by simp [GetD, hdef], by simp [GetND, hdef], by simp [GetDC, hdef],
    by simp [GetNDC, hdef], ?_, ?_⟩
  · simp [Get, GetDomain, hdl, hmiss]
  · simp [GetN, GetDomain, hdl, hmiss]

/-- Witness for C9 at the empty registry with the identity simplifier. -/
theorem c9_missing_config_witness :
    GetDomain (fun s => s) ⟨[], "fr"⟩ "fr" = none ∧
      GetLibrary ⟨[], "fr"⟩ "fr" = none ∧
      GetD ⟨[], "fr"⟩ "default" "hi" [] = some (Printf "hi" []) ∧
      Get (fun s => s) ⟨[], "fr"⟩ "hi" [] = none := by
  have h := c9_missing_config_panics (fun s => s) ⟨[], "fr"⟩ "fr" "default" "hi" "" "" 1 []
      (by intro k c hk; cases hk) rfl
  exact ⟨h.1, h.2.1, (h.2.2 rfl).1, (h.2.2 rfl).2.2.2.2.1⟩

theorem parseDirRec_cons_file (ps : List DirParseFn) (e : WalkEntry)
    (rest : List WalkEntry) (exclude : List String) (h : e.isDir = false) :
    ParseDirRec ps (e :: rest) exclude = ParseDirRec ps rest exclude := by
  simp [ParseDirRec, h]

theorem parseDirRec_cons_excluded (ps : List DirParseFn) (e : WalkEntry)
    (rest : List WalkEntry) (exclude : List String) (hd : e.isDir = true)
    (he : excludedDir exclude e.rel = true) :
    ParseDirRec ps (e :: rest) exclude = ParseDirRec ps rest exclude := by
  simp [ParseDirRec, hd, he]

theorem parseDirRec_cons_err (ps : List DirParseFn) (e : WalkEntry)
    (rest : List WalkEntry) (exclude : List String) (err : String)
    (hd : e.isDir = true) (he : excludedDir exclude e.rel = false)
    (herr : (runParsers ps e.rel).2 = some err) :
    ParseDirRec ps (e :: rest) exclude = ((runParsers ps e.rel).1, some err) := by
  simp [ParseDirRec, hd, he, herr]

theorem parseDirRec_cons_ok (ps : List DirParseFn) (e : WalkEntry)
    (rest : List WalkEntry) (exclude : List String)
    (hd : e.isDir = true) (he : excludedDir exclude e.rel = false)
    (hok : (runParsers ps e.rel).2 = none) :
    ParseDirRec ps (e :: rest) exclude
      = ((runParsers ps e.rel).1 ++ (ParseDirRec ps rest exclude).1,
          (ParseDirRec ps rest exclude).2) := by
  simp [ParseDirRec, hd, he, hok]

theorem runParsersFrom_rel (ps : List DirParseFn) (j : Nat) (rel : String) :
    ∀ pr ∈ (runParsersFrom ps j rel).1, pr.1 = rel := by
  induction ps generalizing j with
  | nil => simp [runParsersFrom]
  | cons p rest ih =>
      intro pr hpr
      unfold runParsersFrom at hpr
      cases hp : p rel with
      | some e =>
          simp [hp] at hpr
          simp [hpr]
      | none =>
          simp [hp] at hpr
          cases hpr with
          | inl h => simp [h]
          | inr h => exact ih (j + 1) pr h

theorem runParsersFrom_complete (ps : List DirParseFn) (j : Nat) (rel : String)
    (hok : (runParsersFrom ps j rel).2 = none) :
    ∀ i, i < ps.length → (rel, j + i) ∈ (runParsersFrom ps j rel).1 := by
  induction ps generalizing j with
  | nil => simp
  | cons p rest ih =>
      intro i hi
      unfold runParsersFrom at hok ⊢
      cases hp : p rel with
      | some e => simp [hp] at hok
      | none =>
          simp [hp] at hok ⊢
          cases i with
          | zero => simp
          | succ k =>
              right
              have hk : k < rest.length := by simpa using hi
              have hmem := ih (j + 1) hok k hk
              have harith : j + (k + 1) = j + 1 + k := by omega
              rw [harith]
              exact hmem

theorem parseDirRec_never_on_excluded (ps : List DirParseFn) (exclude : List String)
    (rel : String) (j : Nat) (hex : excludedDir exclude rel = true) :
    ∀ entries, (rel, j) ∉ (ParseDirRec ps entries exclude).1 := by
  intro entries
  induction entries with
  | nil => simp [ParseDirRec]
  | cons e rest ih =>
      cases hd : e.isDir with
      | false =>
          rw [parseDirRec_cons_file ps e rest exclude hd]
          exact ih
      | true =>
          cases he : excludedDir exclude e.rel with
          | true =>
              rw [parseDirRec_cons_excluded ps e rest exclude hd he]
              exact ih
          | false =>
              have hne : (rel, j) ∉ (runParsers ps e.rel).1 := by
                intro hmem
                have h1 : rel = e.rel := runParsersFrom_rel ps 0 e.rel (rel, j) hmem
                rw [h1] at hex
                simp [hex] at he
              cases hr : (runParsers ps e.rel).2 with
              | some err =>
                  rw [parseDirRec_cons_err ps e rest exclude err hd he hr]
                  simpa using hne
              | none =>
                  rw [parseDirRec_cons_ok ps e rest exclude hd he hr]
                  simp only [List.mem_append]
                  rintro (hm | hm)
                  · exact hne hm
                  · exact ih hm

theorem parseDirRec_complete (ps : List DirParseFn) (exclude : List String) :
    ∀ entries, (ParseDirRec ps entries exclude).2 = none →
      ∀ e ∈ entries, e.isDir = true → excludedDir exclude e.rel = false →
        ∀ j, j < ps.length → (e.rel, j) ∈ (ParseDirRec ps entries exclude).1 := by
  intro entries
  induction entries with
  | nil =>
      intro _ e he
      cases he
  | cons e0 rest ih =>
      intro hok e he hd hex j hj
      cases hd0 : e0.isDir with
      | false =>
          rw [parseDirRec_cons_file ps e0 rest exclude hd0] at hok ⊢
          cases he with
          | head => simp [hd] at hd0
          | tail _ hmem => exact ih hok e hmem hd hex j hj
      | true =>
          cases he0 : excludedDir exclude e0.rel with
          | true =>
              rw [parseDirRec_cons_excluded ps e0 rest exclude hd0 he0] at hok ⊢
              cases he with
              | head => simp [hex] at he0
              | tail _ hmem => exact ih hok e hmem hd hex j hj
          | false =>
              cases hr : (runParsers ps e0.rel).2 with
              | some err =>
                  rw [parseDirRec_cons_err ps e0 rest exclude err hd0 he0 hr] at hok
                  simp at hok
              | none =>
                  rw [parseDirRec_cons_ok ps e0 rest exclude hd0 he0 hr] at hok ⊢
                  simp only [List.mem_append]
                  cases he with
                  | head =>
                      left
                      simpa using runParsersFrom_complete ps 0 e0.rel hr j hj
                  | tail _ hmem => exact Or.inr (ih (by simpa using hok) e hmem hd hex j hj)

/-- Claim C10: the registered parsers are never invoked on a directory whose
relative path has an excluded string as a raw string prefix (so excluding
"foo" also excludes a sibling directory named "foobar"); every other visited
directory is passed to every registered parser when the walk succeeds; and
the first parser error aborts the walk and is returned. -/
theorem c10_parse_dir_rec_exclusion (ps : List DirParseFn) (entries : List WalkEntry)
    (exclude : List String) :
    (∀ rel j, excludedDir exclude rel = true →
        (rel, j) ∉ (ParseDirRec ps entries exclude).1) ∧
      ((ParseDirRec ps entries exclude).2 = none →
        ∀ e ∈ entries, e.isDir = true → excludedDir exclude e.rel = false →
          ∀ j, j < ps.length → (e.rel, j) ∈ (ParseDirRec ps entries exclude).1) ∧
      (∀ e rest err, e.isDir = true → excludedDir exclude e.rel = false →
        (runParsers ps e.rel).2 = some err →
        ParseDirRec ps (e :: rest) exclude = ((runParsers ps e.rel).1, some err)) ∧
      excludedDir ["foo"] "foobar" = true := by
  refine ⟨?_, ?_, ?_, by decide⟩
  · intro rel j hex
    exact parseDirRec_never_on_excluded ps exclude rel j hex entries
  · exact parseDirRec_complete ps exclude entries
  · intro e rest err hd hex herr
    exact parseDirRec_cons_err ps e rest exclude err hd hex herr

/-- Witness for C10: a concrete walk with exclusion list ["foo"], a parsed
directory "src", an excluded sibling "foobar", and a separate erroring
parser run. -/
theorem c10_parse_dir_rec_witness :
    ("foobar", 0) ∉ (ParseDirRec [fun _ => none]
        [⟨"src", true⟩, ⟨"foobar", true⟩] ["foo"]).1 ∧
      ("src", 0) ∈ (ParseDirRec [fun _ => none]
        [⟨"src", true⟩, ⟨"foobar", true⟩] ["foo"]).1 ∧
      ParseDirRec [fun _ => some "boom"] [⟨"a", true⟩, ⟨"b", true⟩] []
        = ((runParsers [fun _ => some "boom"] "a").1, some "boom") := by
  have h1 := c10_parse_dir_rec_exclusion [fun _ => none]
      [⟨"src", true⟩, ⟨"foobar", true⟩] ["foo"]
  have h2 := c10_parse_dir_rec_exclusion [fun _ => some "boom"] [⟨"a", true⟩, ⟨"b", true⟩] []
  refine ⟨h1.1 "foobar" 0 (by decide), ?_, ?_⟩
  · exact h1.2.1 rfl ⟨"src", true⟩ (by decide) rfl (by decide) 0 (by decide)
  · exact h2.2.2.1 ⟨"a", true⟩ [⟨"b", true⟩] "boom" rfl (by decide) rfl

theorem pbin_ofIdx_toIdx (op : PBin) : PBin.ofIdx op.toIdx = some op := by
  cases op <;> rfl

theorem decE_encE (e : PluralExpr) : decE (encE e) = some e := by
  induction e with
  | num n => rfl
  | varn => rfl
  | pnot e ih => simp [encE, decE, ih]
  | bin op a b iha ihb => simp [encE, decE, iha, ihb, pbin_ofIdx_toIdx]
  | cond c t f ihc iht ihf => simp [encE, decE, ihc, iht, ihf]

theorem decStrList_map (l : List String) : decStrList (l.map SnapV.str) = some l := by
  induction l with
  | nil => rfl
  | cons s rest ih => simp [decStrList, ih]

theorem decTr_encTr (t : Translation) : decTr (encTr t) = some t := by
  cases t
  simp [encTr, decTr, decStrList_map]

theorem decTrList_map (l : List Translation) : decTrList (l.map encTr) = some l := by
  induction l with
  | nil => rfl
  | cons t rest ih => simp [decTrList, decTr_encTr, ih]

theorem decRule_encRule (r : Option PluralRule) : decRule (encRule r) = some r := by
  cases r with
  | none => rfl
  | some r0 =>
      cases r0
      simp [encRule, decRule, decE_encE]

theorem unmarshal_marshal (d : Domain) : UnmarshalBinary (MarshalBinary d) = some d := by
  cases d
  simp [MarshalBinary, UnmarshalBinary, decRule_encRule, decTrList_map]

theorem appendField_start (st : RecState) (f : LastF) (x : String) :
    (appendField st f x).startLine = st.startLine := by
  cases f <;> rfl

theorem applyLine_err (st : RecState) (ln : Nat) (pl : POLine) (e : SyntaxError)
    (h : applyLine st ln pl = .error e) : e.line = ln := by
  cases pl <;> simp only [applyLine] at h
  case comment => cases h
  case msgctxt =>
    split at h
    · injection h with h2
      subst h2
      rfl
    · cases h
  case msgid =>
    split at h
    · injection h with h2
      subst h2
      rfl
    · cases h
  case msgidPlural =>
    split at h
    · injection h with h2
      subst h2
      rfl
    · cases h
  case msgstr => cases h
  case msgstrIdx => cases h
  case strCont =>
    split at h
    · injection h with h2
      subst h2
      rfl
    · cases h
  case blank => cases h
  case bad =>
    injection h with h2
    subst h2
    rfl

theorem applyLine_start (st : RecState) (ln : Nat) (pl : POLine) (st2 : RecState)
    (h : applyLine st ln pl = .ok st2) : st2.startLine = st.startLine := by
  cases pl <;> simp only [applyLine] at h
  case comment =>
    injection h with h2
    subst h2
    rfl
  case msgctxt =>
    split at h
    · cases h
    · injection h with h2
      subst h2
      rfl
  case msgid =>
    split at h
    · cases h
    · injection h with h2
      subst h2
      rfl
  case msgidPlural =>
    split at h
    · cases h
    · injection h with h2
      subst h2
      rfl
  case msgstr =>
    injection h with h2
    subst h2
    rfl
  case msgstrIdx =>
    injection h with h2
    subst h2
    rfl
  case strCont =>
    split at h
    · cases h
    · injection h with h2
      subst h2
      exact appendField_start _ _ _
  case blank =>
    injection h with h2
    subst h2
    rfl
  case bad => cases h

theorem finalizeRec_err (st : RecState) (e : SyntaxError)
    (h : finalizeRec st = .error e) : e.line = st.startLine := by
  unfold finalizeRec at h
  split at h
  · simp at h
  · split at h
    · cases h
    · injection h with h2
      subst h2
      rfl

theorem poLoop_dir_bound (rest : List String) (k : Nat) (cur : Option RecState)
    (d : Domain) (pl : POLine) (e : SyntaxError) (hk : 1 ≤ k)
    (hcur : ∀ st, cur = some st → 1 ≤ st.startLine ∧ st.startLine < k)
    (ih : ∀ (k2 : Nat) (cur2 : Option RecState) (d2 : Domain), 1 ≤ k2 →
      (∀ st, cur2 = some st → 1 ≤ st.startLine ∧ st.startLine < k2) →
      ∀ e2, poLoop (numberFrom k2 rest) cur2 d2 = .error e2 →
      1 ≤ e2.line ∧ e2.line < k2 + rest.length)
    (h : (match applyLine (cur.getD (emptyRec k)) k pl with
          | .error e1 => (Except.error e1 : Except SyntaxError Domain)
          | .ok st2 => poLoop (numberFrom (k + 1) rest) (some st2) d) = .error e) :
    1 ≤ e.line ∧ e.line < k + (rest.length + 1) := by
  cases ha : applyLine (cur.getD (emptyRec k)) k pl with
  | error e2 =>
      simp only [ha] at h
      injection h with h2
      subst h2
      have hl := applyLine_err _ k pl e2 ha
      omega
  | ok st2 =>
      simp only [ha] at h
      have hstart := applyLine_start _ k pl st2 ha
      have hcur2 : ∀ st3, some st2 = some st3 → 1 ≤ st3.startLine ∧ st3.startLine < k + 1 := by
        intro st3 hst3
        injection hst3 with h3
        subst h3
        cases hc : cur with
        | none =>
            rw [hc] at hstart
            simp [emptyRec] at hstart
            omega
        | some st0 =>
            rw [hc] at hstart
            simp at hstart
            have hb := hcur st0 hc
            omega
      have hr := ih (k + 1) (some st2) d (by omega) hcur2 e h
      omega

theorem poLoop_err_bound (ls : List String) :
    ∀ (k : Nat) (cur : Option RecState) (d : Domain),
      1 ≤ k → (∀ st, cur = some st → 1 ≤ st.startLine ∧ st.startLine < k) →
      ∀ e, poLoop (numberFrom k ls) cur d = .error e →
      1 ≤ e.line ∧ e.line < k + ls.length := by
  induction ls with
  | nil =>
      intro k cur d hk hcur e h
      cases cur with
      | none => simp [numberFrom, poLoop] at h
      | some st =>
          simp only [numberFrom, poLoop] at h
          cases hf : finalizeRec st with
          | error e2 =>
              simp only [hf] at h
              injection h with h2
              subst h2
              have hb := hcur st rfl
              have hl := finalizeRec_err st e2 hf
              omega
          | ok o =>
              simp only [hf] at h
              cases o <;> simp at h
  | cons s rest ih =>
      intro k cur d hk hcur e h
      simp only [numberFrom, poLoop] at h
      cases hp : parseLine s with
      | blank =>
          simp only [hp] at h
          cases cur with
          | none =>
              have hr := ih (k + 1) none d (by omega) (by intro st hst; cases hst) e h
              simp only [List.length_cons]
              omega
          | some st =>
              simp only [] at h
              cases hf : finalizeRec st with
              | error e2 =>
                  simp only [hf] at h
                  injection h with h2
                  subst h2
                  have hb := hcur st rfl
                  have hl := finalizeRec_err st e2 hf
                  simp only [List.length_cons]
                  omega
              | ok o =>
                  simp only [hf] at h
                  cases o with
                  | none =>
                      have hr := ih (k + 1) none d (by omega)
                        (by intro st2 hst; cases hst) e h
                      simp only [List.length_cons]
                      omega
                  | some t =>
                      have hr := ih (k + 1) none (installEntry d t) (by omega)
                        (by intro st2 hst; cases hst) e h
                      simp only [List.length_cons]
                      omega
      | bad =>
          simp only [hp] at h
          injection h with h2
          subst h2
          simp only [List.length_cons]
          omega
      | comment refs =>
          simp only [hp] at h
          simpa using poLoop_dir_bound rest k cur d (.comment refs) e hk hcur ih h
      | msgctxt x =>
          simp only [hp] at h
          simpa using poLoop_dir_bound rest k cur d (.msgctxt x) e hk hcur ih h
      | msgid x =>
          simp only [hp] at h
          simpa using poLoop_dir_bound rest k cur d (.msgid x) e hk hcur ih h
      | msgidPlural x =>
          simp only [hp] at h
          simpa using poLoop_dir_bound rest k cur d (.msgidPlural x) e hk hcur ih h
      | msgstr x =>
          simp only [hp] at h
          simpa using poLoop_dir_bound rest k cur d (.msgstr x) e hk hcur ih h
      | msgstrIdx i x =>
          simp only [hp] at h
          simpa using poLoop_dir_bound rest k cur d (.msgstrIdx i x) e hk hcur ih h
      | strCont x =>
          simp only [hp] at h
          simpa using poLoop_dir_bound rest k cur d (.strCont x) e hk hcur ih h

/-- Claim C7: parsing is all-or-nothing — when the text parser fails it
returns a SyntaxError carrying the offending line number (a line of the
input), the caller's Domain is left unchanged by the failed load, and the
failure is a typed error value (the parser is a total function into
`Except`), never a panic or log output. -/
theorem c7_parse_all_or_nothing (s : String) (e : SyntaxError) (d0 : Domain)
    (h : poParse s = .error e) :
    (1 ≤ e.line ∧ e.line ≤ (splitLines s).length) ∧
      loadCatalog d0 s = (d0, some e) := by
  have h2 : poLoop (numberFrom 1 (splitLines s)) none (emptyDomain "default" "")
      = .error e := h
  have hb := poLoop_err_bound (splitLines s) 1 none (emptyDomain "default" "")
      (le_refl 1) (by intro st hst; cases hst) e h2
  refine ⟨⟨hb.1, by omega⟩, by simp [loadCatalog, h]⟩

/-- Witness for C7 at the unparsable input "garbage": the error carries line
1 and the caller's Domain is unchanged. -/
theorem c7_parse_all_or_nothing_witness :
    (1 ≤ SyntaxError.line ⟨1⟩ ∧ SyntaxError.line ⟨1⟩ ≤ (splitLines "garbage").length) ∧
      loadCatalog (emptyDomain "d" "") "garbage" = (emptyDomain "d" "", some ⟨1⟩) :=
  c7_parse_all_or_nothing "garbage" ⟨1⟩ (emptyDomain "d" "") rfl

/-- Claim C3: for every Domain produced by the text parser, serializing with
the snapshot writer and parsing the result back yields a Domain with
identical entry content (here: a fully equal Domain), so lookups against the
round-tripped Domain return the same translations. -/
theorem c3_binary_roundtrip (s : String) (d : Domain) (_h : poParse s = .ok d) :
    UnmarshalBinary (MarshalBinary d) = some d ∧
      ∀ d2, UnmarshalBinary (MarshalBinary d) = some d2 →
        d2.entries = d.entries ∧
        (∀ id ctx, getTr d2 id ctx = getTr d id ctx) ∧
        (∀ id pid n ctx, getTrN d2 id pid n ctx = getTrN d id pid n ctx) := by
  refine ⟨unmarshal_marshal d, ?_⟩
  intro d2 h2
  rw [unmarshal_marshal d] at h2
  injection h2 with h3
  subst h3
  exact ⟨rfl, fun id ctx => rfl, fun id pid n ctx => rfl⟩

/-- Witness for C3 at a concrete parsed catalog. -/
theorem c3_binary_roundtrip_witness :
    UnmarshalBinary (MarshalBinary ⟨"default", "", none, [⟨"a", "", "", ["b"], [], false⟩]⟩)
      = some ⟨"default", "", none, [⟨"a", "", "", ["b"], [], false⟩]⟩ :=
  (c3_binary_roundtrip "msgid \"a\"\nmsgstr \"b\""
    ⟨"default", "", none, [⟨"a", "", "", ["b"], [], false⟩]⟩ rfl).1

theorem readCell_lt (h : Heap) (a : Nat) (c : TrCell) (hc : readCell h a = some c) :
    a < h.cells.length :=
  (List.getElem?_eq_some.mp hc).1

theorem readPool_lt (h : Heap) (b : Nat) (l : List String) (hp : readPool h b = some l) :
    b < h.pools.length :=
  (List.getElem?_eq_some.mp hp).1

theorem validRef_elim (h : Heap) (a : Nat) (hv : validRef h a) :
    ∃ c trs refs, readCell h a = some c ∧ readPool h c.trsRef = some trs ∧
      readPool h c.refsRef = some refs ∧
      readEntry h a = some (c.cID, c.cPluralID, c.cDirty, trs, refs) := by
  unfold validRef at hv
  rw [Option.isSome_iff_exists] at hv
  obtain ⟨x, hx⟩ := hv
  unfold readEntry at hx
  cases hc : readCell h a with
  | none =>
      rw [hc] at hx
      simp at hx
  | some c =>
      rw [hc] at hx
      cases ht : readPool h c.trsRef with
      | none => simp [ht] at hx
      | some trs =>
          cases hr : readPool h c.refsRef with
          | none => simp [ht, hr] at hx
          | some refs =>
              refine ⟨c, trs, refs, rfl, ht, hr, ?_⟩
              simp only [readEntry, hc, ht, hr]

theorem readEntry_eq (h : Heap) (a : Nat) (c : TrCell) (hc : readCell h a = some c) :
    readEntry h a
      = (match readPool h c.trsRef, readPool h c.refsRef with
        | some trs, some refs => some (c.cID, c.cPluralID, c.cDirty, trs, refs)
        | _, _ => none) := by
  unfold readEntry
  rw [hc]

theorem copyEntry_readCell_lt (h : Heap) (c0 : TrCell) (a : Nat)
    (ha : a < h.cells.length) :
    readCell (copyEntry h c0).1 a = readCell h a :=
  List.getElem?_append_left ha

theorem copyEntry_readPool_lt (h : Heap) (c0 : TrCell) (b : Nat)
    (hb : b < h.pools.length) :
    readPool (copyEntry h c0).1 b = readPool h b :=
  List.getElem?_append_left hb

theorem copyEntry_readEntry (h : Heap) (c0 : TrCell) (a : Nat) (hv : validRef h a) :
    readEntry (copyEntry h c0).1 a = readEntry h a := by
  obtain ⟨c, trs, refs, hc, ht, hr, he⟩ := validRef_elim h a hv
  have ha := readCell_lt h a c hc
  have hbt := readPool_lt h c.trsRef trs ht
  have hbr := readPool_lt h c.refsRef refs hr
  rw [readEntry_eq (copyEntry h c0).1 a c ((copyEntry_readCell_lt h c0 a ha).trans hc),
    readEntry_eq h a c hc,
    copyEntry_readPool_lt h c0 c.trsRef hbt, copyEntry_readPool_lt h c0 c.refsRef hbr]

theorem copyEntry_validRef (h : Heap) (c0 : TrCell) (a : Nat) (hv : validRef h a) :
    validRef (copyEntry h c0).1 a := by
  unfold validRef
  rw [copyEntry_readEntry h c0 a hv]
  exact hv

theorem copyEntry_readCell_new (h : Heap) (c : TrCell) :
    readCell (copyEntry h c).1 h.cells.length
      = some ⟨c.cID, c.cPluralID, c.cDirty, h.pools.length, h.pools.length + 1⟩ := by
  show (h.cells ++ [_])[h.cells.length]? = _
  rw [List.getElem?_append_right (le_refl _)]
  simp

theorem copyEntry_readPool_new1 (h : Heap) (c : TrCell) :
    readPool (copyEntry h c).1 h.pools.length = some ((readPool h c.trsRef).getD []) := by
  show (h.pools ++ [_, _])[h.pools.length]? = _
  rw [List.getElem?_append_right (le_refl _)]
  simp

theorem copyEntry_readPool_new2 (h : Heap) (c : TrCell) :
    readPool (copyEntry h c).1 (h.pools.length + 1)
      = some ((readPool h c.refsRef).getD []) := by
  show (h.pools ++ [_, _])[h.pools.length + 1]? = _
  rw [List.getElem?_append_right (by omega)]
  simp

theorem getTranslations_readCell (rs : List Nat) (h : Heap) (a : Nat)
    (ha : a < h.cells.length) :
    readCell (getTranslations h rs).1 a = readCell h a := by
  induction rs generalizing h with
  | nil => rfl
  | cons a0 rest ih =>
      unfold getTranslations
      cases hc : readCell h a0 with
      | none =>
          simp only [hc]
          exact ih h ha
      | some c =>
          simp only [hc]
          have ha2 : a < (copyEntry h c).1.cells.length := by
            show a < (h.cells ++ [_]).length
            simp
            omega
          rw [ih (copyEntry h c).1 ha2]
          exact copyEntry_readCell_lt h c a ha

theorem getTranslations_readEntry (rs : List Nat) (h : Heap) (a : Nat)
    (hv : validRef h a) :
    readEntry (getTranslations h rs).1 a = readEntry h a := by
  induction rs generalizing h with
  | nil => rfl
  | cons a0 rest ih =>
      unfold getTranslations
      cases hc : readCell h a0 with
      | none =>
          simp only [hc]
          exact ih h hv
      | some c =>
          simp only [hc]
          rw [ih (copyEntry h c).1 (copyEntry_validRef h c a hv)]
          exact copyEntry_readEntry h c a hv

theorem getTranslations_validRef (rs : List Nat) (h : Heap) (a : Nat)
    (hv : validRef h a) :
    validRef (getTranslations h rs).1 a := by
  unfold validRef
  rw [getTranslations_readEntry rs h a hv]
  exact hv

theorem getTranslations_pairs (rs : List Nat) (h : Heap)
    (hv : ∀ a ∈ rs, validRef h a) :
    ((getTranslations h rs).2.length = rs.length) ∧
    ∀ pr ∈ rs.zip (getTranslations h rs).2,
      h.cells.length ≤ pr.2 ∧
      readEntry (getTranslations h rs).1 pr.2 = readEntry h pr.1 ∧
      ∃ c2, readCell (getTranslations h rs).1 pr.2 = some c2 ∧
        h.pools.length ≤ c2.trsRef ∧ h.pools.length ≤ c2.refsRef := by
  induction rs generalizing h with
  | nil => exact ⟨rfl, by simp⟩
  | cons a0 rest ih =>
      obtain ⟨c, trs, refs, hc, ht, hr, he⟩ := validRef_elim h a0 (hv a0 (by simp))
      have hred : getTranslations h (a0 :: rest)
          = ((getTranslations (copyEntry h c).1 rest).1,
             h.cells.length :: (getTranslations (copyEntry h c).1 rest).2) := by
        rw [getTranslations]
        simp only [hc]
        rfl
      have hv2 : ∀ a ∈ rest, validRef (copyEntry h c).1 a := by
        intro a ha
        exact copyEntry_validRef h c a (hv a (List.mem_cons_of_mem _ ha))
      obtain ⟨ihlen, ihpairs⟩ := ih (copyEntry h c).1 hv2
      have hnewcell : readCell (copyEntry h c).1 h.cells.length
          = some ⟨c.cID, c.cPluralID, c.cDirty, h.pools.length, h.pools.length + 1⟩ :=
        copyEntry_readCell_new h c
      have hnewentry : readEntry (copyEntry h c).1 h.cells.length = readEntry h a0 := by
        rw [readEntry_eq (copyEntry h c).1 h.cells.length _ hnewcell, he]
        simp only [copyEntry_readPool_new1 h c, copyEntry_readPool_new2 h c, ht, hr,
          Option.getD_some]
      have hnewvalid : validRef (copyEntry h c).1 h.cells.length := by
        unfold validRef
        rw [hnewentry, he]
        rfl
      constructor
      · rw [hred]
        simp [ihlen]
      · intro pr hpr
        rw [hred] at hpr
        simp only [List.zip_cons_cons, List.mem_cons] at hpr
        cases hpr with
        | inl hpr0 =>
            subst hpr0
            refine ⟨le_refl _, ?_, ?_⟩
            · rw [hred]
              show readEntry (getTranslations (copyEntry h c).1 rest).1 h.cells.length
                = readEntry h a0
              rw [getTranslations_readEntry rest (copyEntry h c).1 h.cells.length hnewvalid]
              exact hnewentry
            · refine ⟨⟨c.cID, c.cPluralID, c.cDirty, h.pools.length, h.pools.length + 1⟩,
                ?_, le_refl _, Nat.le_succ _⟩
              rw [hred]
              show readCell (getTranslations (copyEntry h c).1 rest).1 h.cells.length = _
              have hlt : h.cells.length < (copyEntry h c).1.cells.length := by
                show h.cells.length < (h.cells ++ [_]).length
                simp
              rw [getTranslations_readCell rest (copyEntry h c).1 h.cells.length hlt]
              exact hnewcell
        | inr hprr =>
            obtain ⟨hge, hagree, c2, hc2, hb1, hb2⟩ := ihpairs pr hprr
            have hcl : (copyEntry h c).1.cells.length = h.cells.length + 1 := by
              show (h.cells ++ [_]).length = _
              simp
            have hpl : (copyEntry h c).1.pools.length = h.pools.length + 2 := by
              show (h.pools ++ [_, _]).length = _
              simp
            refine ⟨by omega, ?_, c2, ?_, by omega, by omega⟩
            · rw [hred]
              show readEntry (getTranslations (copyEntry h c).1 rest).1 pr.2 = readEntry h pr.1
              rw [hagree]
              exact copyEntry_readEntry h c pr.1
                (hv pr.1 (List.mem_cons_of_mem _ (List.of_mem_zip hprr).1))
            · rw [hred]
              exact hc2

theorem readPool_writePool_ne (h : Heap) (b : Nat) (v : List String) (x : Nat)
    (hx : x ≠ b) : readPool (writePool h b v) x = readPool h x :=
  List.getElem?_set_ne (Ne.symm hx)

theorem readEntry_writePool_ne (h : Heap) (b : Nat) (v : List String) (a : Nat)
    (c : TrCell) (hc : readCell h a = some c)
    (hbt : c.trsRef ≠ b) (hbr : c.refsRef ≠ b) :
    readEntry (writePool h b v) a = readEntry h a := by
  have hc2 : readCell (writePool h b v) a = some c := hc
  rw [readEntry_eq (writePool h b v) a c hc2, readEntry_eq h a c hc,
    readPool_writePool_ne h b v c.trsRef hbt, readPool_writePool_ne h b v c.refsRef hbr]

theorem readEntry_writeCell_ne (h : Heap) (a2 : Nat) (c3 : TrCell) (a : Nat)
    (hne : a2 ≠ a) : readEntry (writeCell h a2 c3) a = readEntry h a := by
  have hcc : readCell (writeCell h a2 c3) a = readCell h a :=
    List.getElem?_set_ne hne
  unfold readEntry
  rw [hcc]
  rfl

/-- Claim C4: enumeration (`GetTranslations`) returns an independent deep
copy of every entry — exactly one copy per stored entry, at a fresh address
that aliases no stored entry, whose fresh container cells hold copies of the
Forms and References contents; each copy agrees with its stored entry on ID,
PluralID, dirty flag, forms and references; the stored entries are untouched
by enumeration, and mutating a returned copy (its cell or either of its
containers) leaves the observable state of every stored entry unchanged. -/
theorem c4_get_translations_deep_copy (h : Heap) (rs : List Nat)
    (hv : ∀ a ∈ rs, validRef h a) :
    ((getTranslations h rs).2.length = rs.length) ∧
    (∀ a ∈ rs, readEntry (getTranslations h rs).1 a = readEntry h a) ∧
    ∀ pr ∈ rs.zip (getTranslations h rs).2,
      pr.2 ∉ rs ∧
      readEntry (getTranslations h rs).1 pr.2 = readEntry h pr.1 ∧
      ∃ c2, readCell (getTranslations h rs).1 pr.2 = some c2 ∧
        (∀ v a, a ∈ rs →
          readEntry (writePool (getTranslations h rs).1 c2.trsRef v) a
            = readEntry (getTranslations h rs).1 a) ∧
        (∀ v a, a ∈ rs →
          readEntry (writePool (getTranslations h rs).1 c2.refsRef v) a
            = readEntry (getTranslations h rs).1 a) ∧
        (∀ c3 a, a ∈ rs →
          readEntry (writeCell (getTranslations h rs).1 pr.2 c3) a
            = readEntry (getTranslations h rs).1 a) := by
  obtain ⟨hlen, hpairs⟩ := getTranslations_pairs rs h hv
  refine ⟨hlen, ?_, ?_⟩
  · intro a ha
    exact getTranslations_readEntry rs h a (hv a ha)
  · intro pr hpr
    obtain ⟨hge, hagree, c2, hc2, hb1, hb2⟩ := hpairs pr hpr
    have hnotin : pr.2 ∉ rs := by
      intro hmem
      obtain ⟨ca, trsa, refsa, hca, hta, hra, hea⟩ := validRef_elim h pr.2 (hv pr.2 hmem)
      have := readCell_lt h pr.2 ca hca
      omega
    refine ⟨hnotin, hagree, c2, hc2, ?_, ?_, ?_⟩
    · intro v a ha
      obtain ⟨ca, trsa, refsa, hca, hta, hra, hea⟩ := validRef_elim h a (hv a ha)
      have hlt := readCell_lt h a ca hca
      have hq : readCell (getTranslations h rs).1 a = some ca :=
        (getTranslations_readCell rs h a hlt).trans hca
      have hp1 := readPool_lt h ca.trsRef trsa hta
      have hp2 := readPool_lt h ca.refsRef refsa hra
      exact readEntry_writePool_ne _ c2.trsRef v a ca hq (by omega) (by omega)
    · intro v a ha
      obtain ⟨ca, trsa, refsa, hca, hta, hra, hea⟩ := validRef_elim h a (hv a ha)
      have hlt := readCell_lt h a ca hca
      have hq : readCell (getTranslations h rs).1 a = some ca :=
        (getTranslations_readCell rs h a hlt).trans hca
      have hp1 := readPool_lt h ca.trsRef trsa hta
      have hp2 := readPool_lt h ca.refsRef refsa hra
      exact readEntry_writePool_ne _ c2.refsRef v a ca hq (by omega) (by omega)
    · intro c3 a ha
      obtain ⟨ca, trsa, refsa, hca, hta, hra, hea⟩ := validRef_elim h a (hv a ha)
      have hlt := readCell_lt h a ca hca
      exact readEntry_writeCell_ne _ pr.2 c3 a (by omega)

/-- Witness for C4 at a one-entry store: the copy lands at the fresh address
1, agrees with the stored entry at address 0, and the stored entry is
unchanged. -/
theorem c4_get_translations_witness :
    ((getTranslations ⟨[⟨"a", "as", false, 0, 1⟩], [["x"], ["r"]]⟩ [0]).2.length = 1) ∧
      readEntry (getTranslations ⟨[⟨"a", "as", false, 0, 1⟩], [["x"], ["r"]]⟩ [0]).1 0
        = readEntry ⟨[⟨"a", "as", false, 0, 1⟩], [["x"], ["r"]]⟩ 0 ∧
      ((0 : Nat), (1 : Nat)).2 ∉ [(0 : Nat)] ∧
      readEntry (getTranslations ⟨[⟨"a", "as", false, 0, 1⟩], [["x"], ["r"]]⟩ [0]).1 1
        = readEntry ⟨[⟨"a", "as", false, 0, 1⟩], [["x"], ["r"]]⟩ 0 := by
  have hv : ∀ a ∈ [(0 : Nat)], validRef ⟨[⟨"a", "as", false, 0, 1⟩], [["x"], ["r"]]⟩ a := by
    intro a ha
    simp at ha
    subst ha
    unfold validRef
    decide
  have h := c4_get_translations_deep_copy ⟨[⟨"a", "as", false, 0, 1⟩], [["x"], ["r"]]⟩ [0] hv
  have hpr := h.2.2 ((0 : Nat), (1 : Nat)) (by decide)
  exact ⟨h.1, h.2.1 0 (by decide), hpr.1, hpr.2.1⟩

end Gotext
